import Mathlib

/-!
Verification of the C-subset scanner (`scanner.cpp`) and recursive-descent
parser (`C_lange_Parser_in_Cpp.cpp`).

The scanner is embedded as a total function on `List Char` (well-founded
recursion on the remaining input length).  Each branch of `scanGo` mirrors one
branch of the C++ dispatch loop in `scan`, in the same order.  Tokens are
instrumented with the 0-based source index `pos` of their first character
(implicit in the C++ execution as `current_char_index`), which the error
claims quantify over.

The parser is embedded as a family of fuel-indexed functions mirroring the
member functions of the C++ `Parser` class; the state is the list of tokens
that remain from the cursor onwards, and the `skip_comments` cursor mutation
performed by `peek` and `lookahead` is threaded explicitly.
-/

namespace CScan

/-- C `isdigit` on the ASCII source alphabet. -/
def isDigitC (c : Char) : Bool :=
  ['0','1','2','3','4','5','6','7','8','9'].contains c

/-- C `isalpha` on the ASCII source alphabet. -/
def isAlphaC (c : Char) : Bool :=
  ['a','b','c','d','e','f','g','h','i','j','k','l','m',
   'n','o','p','q','r','s','t','u','v','w','x','y','z',
   'A','B','C','D','E','F','G','H','I','J','K','L','M',
   'N','O','P','Q','R','S','T','U','V','W','X','Y','Z'].contains c

/-- C `isalnum`. -/
def isAlnumC (c : Char) : Bool := isAlphaC c || isDigitC c

/-- C `isspace`: space, tab, newline, vertical tab, form feed, carriage return. -/
def isSpaceC (c : Char) : Bool :=
  [' ', '\t', '\n', '\x0b', '\x0c', '\x0d'].contains c

/-- Identifier/keyword continuation characters (`isalnum` or underscore). -/
def isWordC (c : Char) : Bool := isAlnumC c || c = '_'

/-- The 32 reserved words of `scanner.cpp`. -/
def keywords : List (List Char) :=
  ["auto", "break", "case", "char", "const",
   "continue", "default", "do", "double", "else",
   "enum", "extern", "float", "for", "goto", "if",
   "int", "long", "register", "return", "short", "signed",
   "sizeof", "static", "struct", "switch", "typedef", "union", "unsigned",
   "void", "volatile", "while"].map String.data

/-- `single_char_operators` from `scanner.cpp`. -/
def singleCharOperators : List Char :=
  ['+', '-', '*', '/', '=', '<', '>', '%', '^', '|', '&', '~', '!']

/-- `multi_char_operators` from `scanner.cpp` (note the `pow` sentinel),
written out as character lists. -/
def multiCharOperators : List (List Char) :=
  [['+', '+'], ['-', '-'], ['<', '<'], ['>', '>'], ['=', '='], ['&', '&'],
   ['|', '|'], ['+', '='], ['-', '='], ['*', '='], ['/', '='], ['%', '='],
   ['&', '='], ['|', '='], ['^', '='], ['<', '<', '='], ['>', '>', '='],
   ['!', '='], ['>', '='], ['<', '='], ['p', 'o', 'w']]

/-- `special_chars` from `scanner.cpp`. -/
def specialChars : List Char :=
  ['(', ')', '\x7b', '\x7d', ';', ',', '#', '.', '[', ']']

/-- A scanner token: lexical class, lexeme, 1-based line, and the 0-based
source index of the first character of the lexeme (the value of
`current_char_index` at emission time in the C++ code). -/
structure STok where
  cls : String
  val : List Char
  line : Nat
  pos : Nat
  deriving DecidableEq, Repr

/-- Terminal status of a scan, mirroring the error flags of `scanner.cpp`.
`unexpectedChar` records the offending character, the line, and the source
index at which the scan stopped; `untermComment` records the index of the
`/` that opened the unterminated block comment. -/
inductive SStat where
  | ok
  | unexpectedChar (c : Char) (line : Nat) (pos : Nat)
  | untermComment (pos : Nat)
  deriving DecidableEq, Repr

structure ScanResult where
  toks : List STok
  status : SStat
  line : Nat
  deriving DecidableEq, Repr

/-- Prepend a token to a scan result. -/
def consT (t : STok) (r : ScanResult) : ScanResult :=
  ⟨t :: r.toks, r.status, r.line⟩

/-- Prepend several tokens to a scan result. -/
def appendT (ts : List STok) (r : ScanResult) : ScanResult :=
  ⟨ts ++ r.toks, r.status, r.line⟩

/-- The block-comment skipping loop of `scan` (case B of check 2): consume
until `*/`, counting newlines; `none` when end of input is reached first,
which the caller turns into the unterminated-comment error. -/
def skipBlock : List Char → Nat → Option (List Char) × Nat
  | [], line => (none, line)
  | [_], line => (none, line)
  | c1 :: c2 :: rest, line =>
    if c1 = '*' ∧ c2 = '/' then (some rest, line)
    else skipBlock (c2 :: rest) (if c1 = '\n' then line + 1 else line)

theorem skipBlock_some_length {cs : List Char} {line l2 : Nat} {rest : List Char}
    (h : skipBlock cs line = (some rest, l2)) : rest.length + 2 ≤ cs.length := by
  induction cs generalizing line with
  | nil => simp [skipBlock] at h
  | cons c1 t ih =>
    match t with
    | [] => simp [skipBlock] at h
    | c2 :: r =>
      rw [skipBlock] at h
      split at h
      · cases h; simp
      · have := ih h
        simpa using Nat.le_succ_of_le this

theorem length_dropWhile_le (p : Char → Bool) (l : List Char) :
    (l.dropWhile p).length ≤ l.length := by
  induction l with
  | nil => simp [List.dropWhile]
  | cons c t ih =>
    rw [List.dropWhile]
    cases p c
    · simp
    · simp
      omega

/-- The numeric-constant loop of `scan` (check 6, scenario 2).  Arguments:
remaining input, the `number` accumulator, the `has_radix_point` flag, the
source index where the current accumulator began, the current source index,
and the current line.  Returns the emitted tokens, the unconsumed remainder,
and the index after the run. -/
def scanNum : List Char → List Char → Bool → Nat → Nat → Nat →
    List STok × List Char × Nat
  | [], num, hasR, accS, pos, line =>
    ((if hasR then [] else [⟨"NUMERIC CONSTANT", num, line, accS⟩]), [], pos)
  | c :: rest, num, hasR, accS, pos, line =>
    if isDigitC c then scanNum rest (num ++ [c]) hasR accS (pos + 1) line
    else if c = '.' then
      let ds := rest.takeWhile isDigitC
      let rest2 := rest.dropWhile isDigitC
      let t : STok := ⟨"NUMERIC CONSTANT", num ++ '.' :: ds, line, accS⟩
      let next := scanNum rest2 [] true (pos + 1 + ds.length) (pos + 1 + ds.length) line
      (t :: next.1, next.2.1, next.2.2)
    else ((if hasR then [] else [⟨"NUMERIC CONSTANT", num, line, accS⟩]), c :: rest, pos)
termination_by cs _ _ _ _ _ => cs.length
decreasing_by
  · simp only [List.length_cons]; omega
  · simp only [List.length_cons]
    have := length_dropWhile_le isDigitC rest
    omega

theorem scanNum_rest_le (cs num : List Char) (hasR : Bool) (accS pos line : Nat) :
    (scanNum cs num hasR accS pos line).2.1.length ≤ cs.length := by
  induction cs, num, hasR, accS, pos, line using scanNum.induct with
  | case1 num hasR accS pos line => simp [scanNum]
  | case2 c rest num hasR accS pos line hd ih =>
    rw [scanNum]; simp only [hd, if_true]
    exact Nat.le_succ_of_le ih
  | case3 rest num hasR accS pos line ds rest2 hdot ih =>
    rw [scanNum]
    have hdf : isDigitC '.' = false := rfl
    have h1 : (rest.dropWhile isDigitC).length ≤ rest.length :=
      length_dropWhile_le isDigitC rest
    simp only [ds, rest2] at ih
    simp [hdf]
    omega
  | case4 c rest num hasR accS pos line hd hdot =>
    rw [scanNum]; simp [hd, hdot]

theorem scanNum_entry_lt (c : Char) (rest num : List Char) (hasR : Bool)
    (accS pos line : Nat) (h : isDigitC c = true ∨ c = '.') :
    (scanNum (c :: rest) num hasR accS pos line).2.1.length < (c :: rest).length := by
  rw [scanNum]
  rcases h with h | h
  · simp only [h, if_true]
    have := scanNum_rest_le rest (num ++ [c]) hasR accS (pos + 1) line
    simp only [List.length_cons]
    omega
  · subst h
    have hdf : isDigitC '.' = false := rfl
    have h1 : (rest.dropWhile isDigitC).length ≤ rest.length :=
      length_dropWhile_le isDigitC rest
    have h2 := scanNum_rest_le (rest.dropWhile isDigitC) [] true
      (pos + 1 + (rest.takeWhile isDigitC).length)
      (pos + 1 + (rest.takeWhile isDigitC).length) line
    simp [hdf]
    omega

/-- The main dispatch loop of `scan` (`scanner.cpp`).  Branches appear in the
order of the C++ code: newline, other whitespace, single-line comment,
multi-line comment, preprocessor directive, three-character operator,
two-character operator, single-character operator, special character (with
the nested char-literal side path), identifier/keyword, numeric constant,
unexpected character.  `pos` is `current_char_index`, `line` is
`current_line`. -/
def scanGo : List Char → Nat → Nat → ScanResult
  | [], _, line => ⟨[], .ok, line⟩
  | c :: rest, pos, line =>
    if c = '\n' then scanGo rest (pos + 1) (line + 1)
    else if isSpaceC c = true then scanGo rest (pos + 1) line
    else if c = '/' ∧ rest.head? = some '/' then
      let rest2 := rest.dropWhile (fun x => x != '\n')
      consT ⟨"Single-Line Comment", ['/', '/'], line, pos⟩
        (scanGo rest2 (pos + 1 + (rest.length - rest2.length)) line)
    else if c = '/' ∧ rest.head? = some '*' then
      match hsb : skipBlock (rest.drop 1) line with
      | (none, line2) => ⟨[], .untermComment pos, line2⟩
      | (some rest2, line2) =>
        consT ⟨"Multi-Line Comment", "/* .. */".data, line, pos⟩
          (scanGo rest2 (pos + ((c :: rest).length - rest2.length)) line2)
    else if c = '#' then
      let dir := (c :: rest).takeWhile (fun x => x != '\n')
      let rest2 := (c :: rest).dropWhile (fun x => x != '\n')
      consT ⟨"PREPROCESSOR DIRECTIVE", dir, line, pos⟩
        (scanGo rest2 (pos + dir.length) line)
    else if 3 ≤ (c :: rest).length ∧ multiCharOperators.contains ((c :: rest).take 3) = true then
      consT ⟨"OPERATOR", (c :: rest).take 3, line, pos⟩
        (scanGo ((c :: rest).drop 3) (pos + 3) line)
    else if 2 ≤ (c :: rest).length ∧ multiCharOperators.contains ((c :: rest).take 2) = true then
      consT ⟨"OPERATOR", (c :: rest).take 2, line, pos⟩
        (scanGo ((c :: rest).drop 2) (pos + 2) line)
    else if singleCharOperators.contains c = true then
      consT ⟨"OPERATOR", [c], line, pos⟩ (scanGo rest (pos + 1) line)
    else if specialChars.contains c = true then
      if c = '\x27' ∧ isAlnumC ((c :: rest).getD 1 '\x00') = true ∧
          isAlnumC ((c :: rest).getD 2 '\x00') = false ∧
          ¬ (c :: rest).getD 2 '\x00' = '_' then
        consT ⟨"SPECIAL CHARACTER", [c], line, pos⟩
          (consT ⟨"CHAR_LITERAL", [(c :: rest).getD 1 '\x00'], line, pos + 1⟩
            (scanGo ((c :: rest).drop 2) (pos + 2) line))
      else
        consT ⟨"SPECIAL CHARACTER", [c], line, pos⟩ (scanGo rest (pos + 1) line)
    else if isAlphaC c = true ∨ c = '_' then
      let w := (c :: rest).takeWhile isWordC
      let rest2 := (c :: rest).dropWhile isWordC
      consT ⟨if keywords.contains w then "KEYWORD" else "IDENTIFIER", w, line, pos⟩
        (scanGo rest2 (pos + w.length) line)
    else if hnum : isDigitC c = true ∨ (c = '.' ∧ isDigitC ((c :: rest).getD 1 '\x00') = true) then
      let r := scanNum (c :: rest) [] false pos pos line
      appendT r.1 (scanGo r.2.1 r.2.2 line)
    else ⟨[], .unexpectedChar c line pos, line⟩
termination_by cs _ _ => cs.length
decreasing_by
  · simp only [List.length_cons]; omega
  · simp only [List.length_cons]; omega
  · simp only [List.length_cons]
    have := length_dropWhile_le (fun x => x != '\n') rest
    omega
  · simp only [List.length_cons]
    have h1 := skipBlock_some_length hsb
    have h2 : (rest.drop 1).length ≤ rest.length := by
      simp [List.length_drop]
    omega
  · simp only [List.length_cons]
    have h3 : ((c :: rest).dropWhile (fun x => x != '\n')).length ≤ rest.length := by
      have hc : (fun x => x != '\n') c = true := by
        rename_i h1 h2 h3 h4 h5
        simp only [bne_iff_ne]
        intro hceq
        exact h1 hceq
      rw [List.dropWhile]
      simp only [hc]
      exact length_dropWhile_le _ rest
    omega
  · simp only [List.length_cons, List.length_drop]; omega
  · simp only [List.length_cons, List.length_drop]; omega
  · simp only [List.length_cons]; omega
  · simp only [List.length_cons, List.length_drop]; omega
  · simp only [List.length_cons]; omega
  · simp only [List.length_cons]
    rename_i h1 h2 h3 h4 h5 h6 h7 h8 h9 halpha
    have hw : isWordC c = true := by
      rcases halpha with h | h
      · simp [isWordC, isAlnumC, h]
      · simp [isWordC, h]
    rw [List.dropWhile]
    simp only [hw]
    have := length_dropWhile_le isWordC rest
    omega
  · have : isDigitC c = true ∨ c = '.' := by
      rcases hnum with h | h
      · exact Or.inl h
      · exact Or.inr h.1
    exact scanNum_entry_lt c rest [] false pos pos line this

/-- The `scan` entry point: on empty source `current_line` is 0 and nothing
is emitted, otherwise the line counter starts at 1 and the dispatch loop
runs. -/
def scan (cs : List Char) : ScanResult :=
  if cs = [] then ⟨[], .ok, 0⟩ else scanGo cs 0 1

/-- What the scanner `main` prints, abstracted from the exact text. -/
inductive Report where
  | emptySource
  | untermComment
  | unexpectedChar (c : Char) (line : Nat)
  | scanOk (lineCount : Nat)
  deriving DecidableEq, Repr

/-- Observable outcome of the scanner `main`: process exit code, whether
`tokens.txt` is written, and the reports printed, in order. -/
structure Outcome where
  exitCode : Nat
  writesFile : Bool
  reports : List Report
  deriving DecidableEq, Repr

/-- The post-scan logic of `main` in `scanner.cpp`: empty-source check, then
the unterminated-comment error, then the unexpected-character error, and
only otherwise the output file is written and the process exits 0. -/
def mainOutcome (cs : List Char) : Outcome :=
  let r := scan cs
  if cs = [] then ⟨1, false, [.emptySource]⟩
  else match r.status with
    | .untermComment _ => ⟨1, false, [.untermComment]⟩
    | .unexpectedChar c _ _ => ⟨1, false, [.unexpectedChar c r.line]⟩
    | .ok => ⟨0, true, [.scanOk r.line]⟩

/-- First characters of the multi-character operator lexemes. -/
def opHeads : List Char :=
  ['+', '-', '<', '>', '=', '&', '|', '*', '/', '%', '^', '!', 'p']

theorem ops_head_mem : ∀ l ∈ multiCharOperators, l.headD ' ' ∈ opHeads := by decide

theorem opHeads_not_special : ∀ c ∈ opHeads,
    ¬ c = '\n' ∧ isSpaceC c = false ∧ ¬ c = '#' := by decide

theorem ops_no_comment : ∀ l ∈ multiCharOperators,
    ¬ (l.headD ' ' = '/' ∧ l.tail.headD ' ' = '/') ∧
    ¬ (l.headD ' ' = '/' ∧ l.tail.headD ' ' = '*') := by decide

/-- Step lemma for check 4A of `scan`: whenever the next three characters
form a multi-character operator, that operator is emitted as one `OPERATOR`
token and the scan continues three characters later. -/
theorem scanGo_op3 (c1 c2 c3 : Char) (rest : List Char) (pos line : Nat)
    (h : multiCharOperators.contains [c1, c2, c3] = true) :
    scanGo (c1 :: c2 :: c3 :: rest) pos line =
      consT ⟨"OPERATOR", [c1, c2, c3], line, pos⟩ (scanGo rest (pos + 3) line) := by
  have hmem : [c1, c2, c3] ∈ multiCharOperators := List.elem_iff.mp h
  have hh : c1 ∈ opHeads := by
    have := ops_head_mem _ hmem
    simpa using this
  obtain ⟨hn, hs, hp⟩ := opHeads_not_special c1 hh
  have hcm := ops_no_comment _ hmem
  rw [scanGo, if_neg hn, if_neg (by simp [hs]),
    if_neg (by
      rintro ⟨e1, e2⟩
      simp only [List.head?_cons, Option.some.injEq] at e2
      exact hcm.1 (by simp [e1, e2])),
    if_neg (by
      rintro ⟨e1, e2⟩
      simp only [List.head?_cons, Option.some.injEq] at e2
      exact hcm.2 (by simp [e1, e2])),
    if_neg hp,
    if_pos (by
      refine ⟨by simp, ?_⟩
      simpa [List.take_succ_cons] using h)]
  simp [List.take_succ_cons, List.drop_succ_cons]

/-- Step lemma for check 4B of `scan`: when the three-character rule fails
but the next two characters form a multi-character operator, that operator
is emitted and the scan continues two characters later. -/
theorem scanGo_op2 (c1 c2 : Char) (rest : List Char) (pos line : Nat)
    (h : multiCharOperators.contains [c1, c2] = true)
    (hno3 : ¬ (3 ≤ (c1 :: c2 :: rest).length ∧
      multiCharOperators.contains ((c1 :: c2 :: rest).take 3) = true)) :
    scanGo (c1 :: c2 :: rest) pos line =
      consT ⟨"OPERATOR", [c1, c2], line, pos⟩ (scanGo rest (pos + 2) line) := by
  have hmem : [c1, c2] ∈ multiCharOperators := List.elem_iff.mp h
  have hh : c1 ∈ opHeads := by
    have := ops_head_mem _ hmem
    simpa using this
  obtain ⟨hn, hs, hp⟩ := opHeads_not_special c1 hh
  have hcm := ops_no_comment _ hmem
  rw [scanGo, if_neg hn, if_neg (by simp [hs]),
    if_neg (by
      rintro ⟨e1, e2⟩
      simp only [List.head?_cons, Option.some.injEq] at e2
      exact hcm.1 (by simp [e1, e2])),
    if_neg (by
      rintro ⟨e1, e2⟩
      simp only [List.head?_cons, Option.some.injEq] at e2
      exact hcm.2 (by simp [e1, e2])),
    if_neg hp, if_neg hno3,
    if_pos (by
      refine ⟨by simp, ?_⟩
      simpa [List.take_succ_cons] using h)]
  simp [List.take_succ_cons, List.drop_succ_cons]

theorem scanNum_cls (cs num : List Char) (hasR : Bool) (accS pos line : Nat) :
    ∀ t ∈ (scanNum cs num hasR accS pos line).1, t.cls = "NUMERIC CONSTANT" := by
  induction cs, num, hasR, accS, pos, line using scanNum.induct with
  | case1 num hasR accS pos line =>
    cases hasR
    · rw [scanNum]
      simp
    · rw [scanNum]
      simp
  | case2 c rest num hasR accS pos line hd ih =>
    rw [scanNum]
    simp only [hd, if_true]
    exact ih
  | case3 rest num hasR accS pos line ds rest2 hdot ih =>
    rw [scanNum]
    have hdf : isDigitC '.' = false := rfl
    simp only [ds, rest2] at ih
    simp [hdf]
    exact ih
  | case4 c rest num hasR accS pos line hd hdot =>
    rw [scanNum]
    simp only [hd, Bool.false_eq_true, if_false, if_neg hdot]
    cases hasR
    · simp
    · simp

/-- No token emitted by the dispatch loop has class `CHAR_LITERAL`: the only
branch that emits one requires the current character to be both `'` and a
member of the special-character set, and `'` is not in that set. -/
theorem scanGo_no_charlit (cs : List Char) (pos line : Nat) :
    (scanGo cs pos line).toks.all (fun t => t.cls != "CHAR_LITERAL") = true := by
  induction cs, pos, line using scanGo.induct with
  | case1 pos line => rw [scanGo]; rfl
  | case2 rest pos line ih =>
    rw [scanGo, if_pos rfl]; exact ih
  | case3 c rest pos line h1 h2 ih =>
    rw [scanGo, if_neg h1, if_pos h2]; exact ih
  | case4 c rest pos line h1 h2 h3 rest2 ih =>
    rw [scanGo, if_neg h1, if_neg h2, if_pos h3]
    simpa [consT] using ih
  | case5 c rest pos line h1 h2 h3 h4 line2 hsb =>
    rw [scanGo, if_neg h1, if_neg h2, if_neg h3, if_pos h4, hsb]
    rfl
  | case6 c rest pos line h1 h2 h3 h4 rest2 line2 hsb ih =>
    rw [scanGo, if_neg h1, if_neg h2, if_neg h3, if_pos h4, hsb]
    simpa [consT] using ih
  | case7 rest pos line h1 h2 h3 h4 dir rest2 ih =>
    rw [scanGo, if_neg h1, if_neg h2, if_neg h3, if_neg h4, if_pos rfl]
    simpa [consT] using ih
  | case8 c rest pos line h1 h2 h3 h4 h5 h6 ih =>
    rw [scanGo, if_neg h1, if_neg h2, if_neg h3, if_neg h4, if_neg h5, if_pos h6]
    simpa [consT] using ih
  | case9 c rest pos line h1 h2 h3 h4 h5 h6 h7 ih =>
    rw [scanGo, if_neg h1, if_neg h2, if_neg h3, if_neg h4, if_neg h5, if_neg h6,
      if_pos h7]
    simpa [consT] using ih
  | case10 c rest pos line h1 h2 h3 h4 h5 h6 h7 h8 ih =>
    rw [scanGo, if_neg h1, if_neg h2, if_neg h3, if_neg h4, if_neg h5, if_neg h6,
      if_neg h7, if_pos h8]
    simpa [consT] using ih
  | case11 c rest pos line h1 h2 h3 h4 h5 h6 h7 h8 h9 h10 ih =>
    exact absurd (h10.1 ▸ h9) (by decide)
  | case12 c rest pos line h1 h2 h3 h4 h5 h6 h7 h8 h9 h10 ih =>
    rw [scanGo, if_neg h1, if_neg h2, if_neg h3, if_neg h4, if_neg h5, if_neg h6,
      if_neg h7, if_neg h8, if_pos h9, if_neg h10]
    simpa [consT] using ih
  | case13 c rest pos line h1 h2 h3 h4 h5 h6 h7 h8 h9 h10 w rest2 ih =>
    rw [scanGo, if_neg h1, if_neg h2, if_neg h3, if_neg h4, if_neg h5, if_neg h6,
      if_neg h7, if_neg h8, if_neg h9, if_pos h10]
    simp only [consT, List.all_cons, Bool.and_eq_true]
    refine And.intro ?_ ih
    split
    · rfl
    · rfl
  | case14 c rest pos line h1 h2 h3 h4 h5 h6 h7 h8 h9 h10 h11 r ih =>
    rw [scanGo, if_neg h1, if_neg h2, if_neg h3, if_neg h4, if_neg h5, if_neg h6,
      if_neg h7, if_neg h8, if_neg h9, if_neg h10, dif_pos h11]
    simp only [appendT, List.all_append, Bool.and_eq_true]
    refine And.intro ?_ ih
    rw [List.all_eq_true]
    intro t ht
    have := scanNum_cls (c :: rest) [] false pos pos line t ht
    simp [this]
  | case15 c rest pos line h1 h2 h3 h4 h5 h6 h7 h8 h9 h10 h11 =>
    rw [scanGo, if_neg h1, if_neg h2, if_neg h3, if_neg h4, if_neg h5, if_neg h6,
      if_neg h7, if_neg h8, if_neg h9, if_neg h10, dif_neg h11]
    rfl

/-- The word `pow` can never be emitted as an `IDENTIFIER` token: the
three-character operator check runs before the identifier check, so any
word starting with the three characters p, o, w is intercepted. -/
theorem scanGo_no_pow_ident (cs : List Char) (pos line : Nat) :
    (scanGo cs pos line).toks.all
      (fun t => !(t.cls == "IDENTIFIER" && t.val == ['p', 'o', 'w'])) = true := by
  induction cs, pos, line using scanGo.induct with
  | case1 pos line => rw [scanGo]; rfl
  | case2 rest pos line ih =>
    rw [scanGo, if_pos rfl]; exact ih
  | case3 c rest pos line h1 h2 ih =>
    rw [scanGo, if_neg h1, if_pos h2]; exact ih
  | case4 c rest pos line h1 h2 h3 rest2 ih =>
    rw [scanGo, if_neg h1, if_neg h2, if_pos h3]
    simpa [consT] using ih
  | case5 c rest pos line h1 h2 h3 h4 line2 hsb =>
    rw [scanGo, if_neg h1, if_neg h2, if_neg h3, if_pos h4, hsb]
    rfl
  | case6 c rest pos line h1 h2 h3 h4 rest2 line2 hsb ih =>
    rw [scanGo, if_neg h1, if_neg h2, if_neg h3, if_pos h4, hsb]
    simpa [consT] using ih
  | case7 rest pos line h1 h2 h3 h4 dir rest2 ih =>
    rw [scanGo, if_neg h1, if_neg h2, if_neg h3, if_neg h4, if_pos rfl]
    simpa [consT] using ih
  | case8 c rest pos line h1 h2 h3 h4 h5 h6 ih =>
    rw [scanGo, if_neg h1, if_neg h2, if_neg h3, if_neg h4, if_neg h5, if_pos h6]
    simpa [consT] using ih
  | case9 c rest pos line h1 h2 h3 h4 h5 h6 h7 ih =>
    rw [scanGo, if_neg h1, if_neg h2, if_neg h3, if_neg h4, if_neg h5, if_neg h6,
      if_pos h7]
    simpa [consT] using ih
  | case10 c rest pos line h1 h2 h3 h4 h5 h6 h7 h8 ih =>
    rw [scanGo, if_neg h1, if_neg h2, if_neg h3, if_neg h4, if_neg h5, if_neg h6,
      if_neg h7, if_pos h8]
    simpa [consT] using ih
  | case11 c rest pos line h1 h2 h3 h4 h5 h6 h7 h8 h9 h10 ih =>
    exact absurd (h10.1 ▸ h9) (by decide)
  | case12 c rest pos line h1 h2 h3 h4 h5 h6 h7 h8 h9 h10 ih =>
    rw [scanGo, if_neg h1, if_neg h2, if_neg h3, if_neg h4, if_neg h5, if_neg h6,
      if_neg h7, if_neg h8, if_pos h9, if_neg h10]
    simpa [consT] using ih
  | case13 c rest pos line h1 h2 h3 h4 h5 h6 h7 h8 h9 h10 w rest2 ih =>
    rw [scanGo, if_neg h1, if_neg h2, if_neg h3, if_neg h4, if_neg h5, if_neg h6,
      if_neg h7, if_neg h8, if_neg h9, if_pos h10]
    simp only [consT, List.all_cons, Bool.and_eq_true]
    refine And.intro ?_ ih
    have hwne : (c :: rest).takeWhile isWordC ≠ ['p', 'o', 'w'] := by
      intro hw
      have hpre : ['p', 'o', 'w'] <+: (c :: rest) :=
        hw ▸ List.takeWhile_prefix isWordC
      obtain ⟨tl, htl⟩ := hpre
      apply h6
      constructor
      · rw [← htl]; simp
      · rw [← htl]
        rfl
    split
    · rfl
    · simp [hwne]
  | case14 c rest pos line h1 h2 h3 h4 h5 h6 h7 h8 h9 h10 h11 r ih =>
    rw [scanGo, if_neg h1, if_neg h2, if_neg h3, if_neg h4, if_neg h5, if_neg h6,
      if_neg h7, if_neg h8, if_neg h9, if_neg h10, dif_pos h11]
    simp only [appendT, List.all_append, Bool.and_eq_true]
    refine And.intro ?_ ih
    rw [List.all_eq_true]
    intro t ht
    have := scanNum_cls (c :: rest) [] false pos pos line t ht
    simp [this]
  | case15 c rest pos line h1 h2 h3 h4 h5 h6 h7 h8 h9 h10 h11 =>
    rw [scanGo, if_neg h1, if_neg h2, if_neg h3, if_neg h4, if_neg h5, if_neg h6,
      if_neg h7, if_neg h8, if_neg h9, if_neg h10, dif_neg h11]
    rfl

/-- Claim C3 (confirmed): at a position whose next three characters form a
multi-character operator, the scanner emits exactly that three-character
`OPERATOR` token and advances three positions; the two-character rule fires
only when the three-character rule does not match (and then emits the
two-character token and advances two); the single-character rule therefore
applies only when neither longer rule matches. -/
theorem c3_maximal_munch :
    (∀ (c1 c2 c3 : Char) (rest : List Char) (pos line : Nat),
      multiCharOperators.contains [c1, c2, c3] = true →
      scanGo (c1 :: c2 :: c3 :: rest) pos line =
        consT ⟨"OPERATOR", [c1, c2, c3], line, pos⟩ (scanGo rest (pos + 3) line)) ∧
    (∀ (c1 c2 : Char) (rest : List Char) (pos line : Nat),
      multiCharOperators.contains [c1, c2] = true →
      ¬ (3 ≤ (c1 :: c2 :: rest).length ∧
        multiCharOperators.contains ((c1 :: c2 :: rest).take 3) = true) →
      scanGo (c1 :: c2 :: rest) pos line =
        consT ⟨"OPERATOR", [c1, c2], line, pos⟩ (scanGo rest (pos + 2) line)) :=
  ⟨scanGo_op3, scanGo_op2⟩

/-- Witness for C3 at concrete inputs: the three-character operator and the
two-character operator step, evaluated on small inputs. -/
theorem c3_maximal_munch_witness :
    scanGo ['<', '<', '=', 'x'] 0 1 =
      consT ⟨"OPERATOR", ['<', '<', '='], 1, 0⟩ (scanGo ['x'] 3 1) ∧
    scanGo ['+', '+', ';'] 0 1 =
      consT ⟨"OPERATOR", ['+', '+'], 1, 0⟩ (scanGo [';'] 2 1) :=
  ⟨c3_maximal_munch.1 '<' '<' '=' ['x'] 0 1 (by decide),
   c3_maximal_munch.2 '+' '+' [';'] 0 1 (by decide) (by decide)⟩

/-- Claim C5, counterexample: on the source `.5` the scanner emits a
one-character `SPECIAL CHARACTER` token for the `.` followed by a separate
`NUMERIC CONSTANT` token `5` — not one numeric token starting with `.` as
the claim states. -/
theorem c5_counterexample :
    scan ['.', '5'] =
      ⟨[⟨"SPECIAL CHARACTER", ['.'], 1, 0⟩, ⟨"NUMERIC CONSTANT", ['5'], 1, 1⟩],
        .ok, 1⟩ := by
  simp [scan, scanGo, scanNum, skipBlock, consT, appendT, isSpaceC, isDigitC,
    isAlphaC, isWordC, isAlnumC, keywords, multiCharOperators,
    singleCharOperators, specialChars]

/-- Claim C5 (amended): whenever the main dispatch loop arrives at a `.`,
even one immediately followed by a digit, the scanner emits a one-character
`SPECIAL CHARACTER` token and advances one position; the dot-digit numeric
entry of check 6 is unreachable at dispatch because the special-character
check precedes it. -/
theorem c5_dot_always_special (rest : List Char) (pos line : Nat) :
    scanGo ('.' :: rest) pos line =
      consT ⟨"SPECIAL CHARACTER", ['.'], line, pos⟩ (scanGo rest (pos + 1) line) := by
  have hno3 : ¬ (3 ≤ ('.' :: rest).length ∧
      multiCharOperators.contains (('.' :: rest).take 3) = true) := by
    rintro ⟨-, hc⟩
    have hm := List.elem_iff.mp hc
    have h2 := ops_head_mem _ hm
    rw [List.take_succ_cons] at h2
    simp only [List.headD_cons] at h2
    exact absurd h2 (by decide)
  have hno2 : ¬ (2 ≤ ('.' :: rest).length ∧
      multiCharOperators.contains (('.' :: rest).take 2) = true) := by
    rintro ⟨-, hc⟩
    have hm := List.elem_iff.mp hc
    have h2 := ops_head_mem _ hm
    rw [List.take_succ_cons] at h2
    simp only [List.headD_cons] at h2
    exact absurd h2 (by decide)
  rw [scanGo, if_neg (by decide), if_neg (by decide),
    if_neg (by rintro ⟨e, -⟩; exact absurd e (by decide)),
    if_neg (by rintro ⟨e, -⟩; exact absurd e (by decide)),
    if_neg (by decide), if_neg hno3, if_neg hno2,
    if_neg (by decide), if_pos (by decide),
    if_neg (by rintro ⟨e, -⟩; exact absurd e (by decide))]

/-- Claim C9, counterexample (negation of the existential): no source input
whatsoever makes the scanner emit a `CHAR_LITERAL` token, because the
side-path requires the current character to be `'` while also being a
member of the special-character set, and `'` is not in that set. -/
theorem c9_counterexample :
    ¬ ∃ (cs : List Char) (t : STok), t ∈ (scan cs).toks ∧ t.cls = "CHAR_LITERAL" := by
  rintro ⟨cs, t, ht, hcls⟩
  have h : (scan cs).toks.all (fun t => t.cls != "CHAR_LITERAL") = true := by
    rw [scan]
    split
    · rfl
    · exact scanGo_no_charlit cs 0 1
  rw [List.all_eq_true] at h
  have := h t ht
  simp [hcls] at this

/-- Claim C9 (amended): for every source input, the emitted token sequence
contains no `CHAR_LITERAL` token; the side-path in the code is dead. -/
theorem c9_no_charlit_ever (cs : List Char) :
    (scan cs).toks.all (fun t => t.cls != "CHAR_LITERAL") = true := by
  rw [scan]
  split
  · rfl
  · exact scanGo_no_charlit cs 0 1

/-- Concatenation of dot-groups: each group is a radix point followed by its
(possibly empty) digits. -/
def dotGroups (groups : List (List Char)) : List Char :=
  (groups.map (fun g => '.' :: g)).flatten

/-- A maximal digit/radix-point run entered at a digit: leading digits `ds`
followed by the dot-groups. -/
def runOf (ds : List Char) (groups : List (List Char)) : List Char :=
  ds ++ dotGroups groups

/-- Modelled from the spec: the segmentation rule of testable property 6.
The first segment is the leading digits together with the first radix point
and its digits; every later segment is one radix point with its digits
(`0.2222.3333` segments as `0.2222` then `.3333`; a run without a radix
point is a single segment). -/
def claimSegs (ds : List Char) (groups : List (List Char)) : List (List Char) :=
  match groups with
  | [] => [ds]
  | g :: gs => (ds ++ '.' :: g) :: gs.map (fun g2 => '.' :: g2)

/-- One `NUMERIC CONSTANT` token per segment, stamped left to right with
consecutive start positions. -/
def segToks : List (List Char) → Nat → Nat → List STok
  | [], _, _ => []
  | v :: vs, pos, line =>
    ⟨"NUMERIC CONSTANT", v, line, pos⟩ :: segToks vs (pos + v.length) line

/-- The character after the run, if any, neither extends a number nor starts
a new radix point (maximality of the run). -/
def stopsRun : List Char → Bool
  | [] => true
  | c :: _ => !(isDigitC c || c == '.')

theorem takeWhile_digits_append (g t : List Char) (hg : g.all isDigitC = true)
    (ht : t.headD '.' ≠ '.' → isDigitC (t.headD '.') = false) :
    (g ++ t).takeWhile isDigitC = g ∧ (g ++ t).dropWhile isDigitC = t := by
  induction g with
  | nil =>
    simp only [List.nil_append]
    cases t with
    | nil => exact ⟨rfl, rfl⟩
    | cons c r =>
      by_cases hc : c = '.'
      · subst hc
        exact ⟨rfl, rfl⟩
      · have hd : isDigitC c = false := by
          have := ht
          simp only [List.headD_cons] at this
          exact this hc
        rw [List.takeWhile_cons, List.dropWhile_cons]
        simp [hd]
  | cons d g2 ih =>
    simp only [List.all_cons, Bool.and_eq_true] at hg
    rw [List.cons_append, List.takeWhile_cons, List.dropWhile_cons]
    simp only [hg.1]
    have := ih hg.2
    simp [this.1, this.2]

theorem scanNum_digits (ds : List Char) (hds : ds.all isDigitC = true)
    (tail acc : List Char) (hasR : Bool) (accS pos line : Nat) :
    scanNum (ds ++ tail) acc hasR accS pos line =
      scanNum tail (acc ++ ds) hasR accS (pos + ds.length) line := by
  induction ds generalizing acc pos with
  | nil => simp
  | cons d ds2 ih =>
    simp only [List.all_cons, Bool.and_eq_true] at hds
    rw [List.cons_append, scanNum, if_pos hds.1, ih hds.2]
    simp only [List.append_assoc, List.singleton_append, List.length_cons]
    ring_nf

/-- The "all digits" check for the first character after a dot-group chain. -/
theorem dotGroups_head_stops (groups : List (List Char)) (rest : List Char)
    (hrest : stopsRun rest = true) :
    (dotGroups groups ++ rest).headD '.' ≠ '.' →
      isDigitC ((dotGroups groups ++ rest).headD '.') = false := by
  cases groups with
  | nil =>
    simp only [dotGroups, List.map_nil, List.flatten_nil, List.nil_append]
    cases rest with
    | nil => intro h; exact absurd rfl h
    | cons c r =>
      intro _
      simp only [stopsRun, Bool.not_eq_eq_eq_not, Bool.not_true,
        Bool.or_eq_false_iff] at hrest
      simpa using hrest.1
  | cons g gs =>
    simp only [dotGroups, List.map_cons, List.flatten_cons, List.cons_append,
      List.append_assoc, List.headD_cons]
    intro h
    exact absurd rfl h

/-- Tokens produced by the numeric loop while it walks a chain of
dot-groups: the accumulator is flushed with the first group, and every later
group starts a fresh token at its own radix point. -/
def groupToks : List (List Char) → List Char → Nat → Nat → Nat → List STok
  | [], _, _, _, _ => []
  | g :: gs, acc, accS, pos, line =>
    ⟨"NUMERIC CONSTANT", acc ++ '.' :: g, line, accS⟩ ::
      groupToks gs [] (pos + 1 + g.length) (pos + 1 + g.length) line

/-- Behaviour of the numeric loop across a chain of dot-groups, with the
`has_radix_point` flag already set. -/
theorem scanNum_groups (groups : List (List Char)) (rest acc : List Char)
    (hg : groups.all (fun g => g.all isDigitC) = true)
    (hrest : stopsRun rest = true) (accS pos line : Nat) :
    scanNum (dotGroups groups ++ rest) acc true accS pos line =
      (groupToks groups acc accS pos line, rest, pos + (dotGroups groups).length) := by
  induction groups generalizing acc accS pos with
  | nil =>
    simp only [dotGroups, List.map_nil, List.flatten_nil, List.nil_append,
      groupToks, List.length_nil, Nat.add_zero]
    cases rest with
    | nil => rw [scanNum]; rfl
    | cons c r =>
      simp only [stopsRun, Bool.not_eq_eq_eq_not, Bool.not_true,
        Bool.or_eq_false_iff, beq_eq_false_iff_ne, ne_eq] at hrest
      rw [scanNum, if_neg (by simp [hrest.1]), if_neg hrest.2]
      rfl
  | cons g gs ih =>
    simp only [List.all_cons, Bool.and_eq_true] at hg
    have hsplit : dotGroups (g :: gs) ++ rest = '.' :: (g ++ (dotGroups gs ++ rest)) := by
      simp [dotGroups]
    rw [hsplit, scanNum, if_neg (by decide), if_pos rfl]
    have htw := takeWhile_digits_append g (dotGroups gs ++ rest) hg.1
      (dotGroups_head_stops gs rest hrest)
    simp only [htw.1, htw.2]
    rw [ih [] hg.2]
    simp only [groupToks, dotGroups, List.map_cons, List.flatten_cons,
      List.length_append, List.length_cons, Prod.mk.injEq, true_and]
    omega

theorem groupToks_eq_segToks (gs : List (List Char)) (p line : Nat) :
    groupToks gs [] p p line = segToks (gs.map (fun g => '.' :: g)) p line := by
  induction gs generalizing p with
  | nil => rfl
  | cons g gs2 ih =>
    simp only [groupToks, List.map_cons, segToks, List.nil_append,
      List.length_cons]
    rw [ih]
    have harith : p + 1 + g.length = p + (g.length + 1) := by omega
    rw [harith]

/-- The numeric loop on a full maximal run: one `NUMERIC CONSTANT` token per
segment of the specification's segmentation, in left-to-right order, and the
loop stops exactly at the end of the run. -/
theorem scanNum_run (ds : List Char) (groups : List (List Char)) (rest : List Char)
    (hds : ds.all isDigitC = true)
    (hg : groups.all (fun g => g.all isDigitC) = true)
    (hrest : stopsRun rest = true) (pos line : Nat) :
    scanNum (runOf ds groups ++ rest) [] false pos pos line =
      (segToks (claimSegs ds groups) pos line, rest, pos + (runOf ds groups).length) := by
  rw [runOf, List.append_assoc, scanNum_digits ds hds _ [] false pos pos line]
  simp only [List.nil_append]
  cases groups with
  | nil =>
    simp only [dotGroups, List.map_nil, List.flatten_nil, List.nil_append,
      claimSegs, segToks, runOf, List.append_nil]
    cases rest with
    | nil => rw [scanNum]; rfl
    | cons c r =>
      simp only [stopsRun, Bool.not_eq_eq_eq_not, Bool.not_true,
        Bool.or_eq_false_iff, beq_eq_false_iff_ne, ne_eq] at hrest
      rw [scanNum, if_neg (by simp [hrest.1]), if_neg hrest.2]
      rfl
  | cons g gs =>
    simp only [List.all_cons, Bool.and_eq_true] at hg
    have hsplit : dotGroups (g :: gs) ++ rest = '.' :: (g ++ (dotGroups gs ++ rest)) := by
      simp [dotGroups]
    rw [hsplit, scanNum, if_neg (by decide), if_pos rfl]
    have htw := takeWhile_digits_append g (dotGroups gs ++ rest) hg.1
      (dotGroups_head_stops gs rest hrest)
    simp only [htw.1, htw.2]
    rw [scanNum_groups gs rest [] hg.2 hrest]
    rw [groupToks_eq_segToks]
    simp only [claimSegs, segToks, dotGroups, List.map_cons, List.flatten_cons,
      List.cons_append, List.length_append, List.length_cons, Prod.mk.injEq, true_and]
    have harith : pos + ds.length + 1 + g.length = pos + (ds.length + (g.length + 1)) := by
      omega
    rw [harith]
    exact ⟨rfl, by omega⟩

theorem digit_facts : ∀ c ∈ ['0', '1', '2', '3', '4', '5', '6', '7', '8', '9'],
    ¬ c = '\n' ∧ isSpaceC c = false ∧ ¬ c = '/' ∧ ¬ c = '#' ∧
    singleCharOperators.contains c = false ∧ specialChars.contains c = false ∧
    isAlphaC c = false ∧ ¬ c = '_' ∧ c ∉ opHeads := by decide

/-- Dispatch on a digit always reaches check 6 and runs the numeric loop. -/
theorem scanGo_digit_step (c : Char) (rest : List Char) (pos line : Nat)
    (h : isDigitC c = true) :
    scanGo (c :: rest) pos line =
      appendT (scanNum (c :: rest) [] false pos pos line).1
        (scanGo (scanNum (c :: rest) [] false pos pos line).2.1
          (scanNum (c :: rest) [] false pos pos line).2.2 line) := by
  have hc : c ∈ ['0', '1', '2', '3', '4', '5', '6', '7', '8', '9'] :=
    List.elem_iff.mp h
  obtain ⟨f1, f2, f3, f4, f5, f6, f7, f8, f9⟩ := digit_facts c hc
  have hno3 : ¬ (3 ≤ (c :: rest).length ∧
      multiCharOperators.contains ((c :: rest).take 3) = true) := by
    rintro ⟨-, hcon⟩
    have hm := ops_head_mem _ (List.elem_iff.mp hcon)
    rw [List.take_succ_cons] at hm
    simp only [List.headD_cons] at hm
    exact f9 hm
  have hno2 : ¬ (2 ≤ (c :: rest).length ∧
      multiCharOperators.contains ((c :: rest).take 2) = true) := by
    rintro ⟨-, hcon⟩
    have hm := ops_head_mem _ (List.elem_iff.mp hcon)
    rw [List.take_succ_cons] at hm
    simp only [List.headD_cons] at hm
    exact f9 hm
  rw [scanGo, if_neg f1, if_neg (by simp [f2]),
    if_neg (by rintro ⟨e, -⟩; exact f3 e),
    if_neg (by rintro ⟨e, -⟩; exact f3 e),
    if_neg f4, if_neg hno3, if_neg hno2,
    if_neg (by intro hcon; rw [f5] at hcon; exact absurd hcon (by decide)),
    if_neg (by intro hcon; rw [f6] at hcon; exact absurd hcon (by decide)),
    if_neg (by
      rintro (ha | hu)
      · rw [f7] at ha
        exact absurd ha (by decide)
      · exact f8 hu),
    dif_pos (Or.inl h)]

/-- Claim C2 (confirmed): for every maximal run of digits and radix points
that the scanner enters at a digit, the scanner emits exactly one
`NUMERIC CONSTANT` token per segment of the specification's segmentation, in
left-to-right order, and continues after the run; in particular
`0.2222.3333` yields exactly the two tokens `0.2222` then `.3333`,
`333333333` yields exactly one token, and `456` yields exactly one token. -/
theorem c2_numeric_segmentation :
    (∀ (ds : List Char) (groups : List (List Char)) (rest : List Char)
      (pos line : Nat),
      ds ≠ [] → ds.all isDigitC = true →
      groups.all (fun g => g.all isDigitC) = true → stopsRun rest = true →
      scanGo (runOf ds groups ++ rest) pos line =
        appendT (segToks (claimSegs ds groups) pos line)
          (scanGo rest (pos + (runOf ds groups).length) line)) ∧
    scan "0.2222.3333".data =
      ⟨[⟨"NUMERIC CONSTANT", ['0', '.', '2', '2', '2', '2'], 1, 0⟩,
        ⟨"NUMERIC CONSTANT", ['.', '3', '3', '3', '3'], 1, 6⟩], .ok, 1⟩ ∧
    scan "333333333".data =
      ⟨[⟨"NUMERIC CONSTANT", ['3', '3', '3', '3', '3', '3', '3', '3', '3'], 1, 0⟩],
        .ok, 1⟩ ∧
    scan "456".data =
      ⟨[⟨"NUMERIC CONSTANT", ['4', '5', '6'], 1, 0⟩], .ok, 1⟩ := by
  refine ⟨?_, ?_, ?_, ?_⟩
  · intro ds groups rest pos line hne hds hg hrest
    obtain ⟨d, ds2, rfl⟩ : ∃ d ds2, ds = d :: ds2 := by
      cases ds with
      | nil => exact absurd rfl hne
      | cons a b => exact ⟨a, b, rfl⟩
    have hd : isDigitC d = true := by
      simp only [List.all_cons, Bool.and_eq_true] at hds
      exact hds.1
    have hrun : runOf (d :: ds2) groups ++ rest =
        d :: (ds2 ++ (dotGroups groups ++ rest)) := by
      simp [runOf]
    rw [hrun, scanGo_digit_step d _ pos line hd, ← hrun,
      scanNum_run (d :: ds2) groups rest hds hg hrest pos line]
  · simp [scan, scanGo, scanNum, skipBlock, consT, appendT, isSpaceC, isDigitC,
      isAlphaC, isWordC, isAlnumC, keywords, multiCharOperators,
      singleCharOperators, specialChars]
  · simp [scan, scanGo, scanNum, skipBlock, consT, appendT, isSpaceC, isDigitC,
      isAlphaC, isWordC, isAlnumC, keywords, multiCharOperators,
      singleCharOperators, specialChars]
  · simp [scan, scanGo, scanNum, skipBlock, consT, appendT, isSpaceC, isDigitC,
      isAlphaC, isWordC, isAlnumC, keywords, multiCharOperators,
      singleCharOperators, specialChars]

/-- Witness for C2: the segmentation theorem applied to the run
`0.2222.3333` standing alone, with every hypothesis discharged by `decide`. -/
theorem c2_numeric_segmentation_witness :
    scanGo (runOf ['0'] [['2', '2', '2', '2'], ['3', '3', '3', '3']] ++ []) 0 1 =
      appendT (segToks (claimSegs ['0'] [['2', '2', '2', '2'], ['3', '3', '3', '3']]) 0 1)
        (scanGo [] (0 + (runOf ['0'] [['2', '2', '2', '2'], ['3', '3', '3', '3']]).length) 1) :=
  c2_numeric_segmentation.1 ['0'] [['2', '2', '2', '2'], ['3', '3', '3', '3']] [] 0 1
    (by decide) (by decide) (by decide) (by decide)

/-- Position discipline of a scan result relative to the current index: all
tokens start at or after `pos`, and when the result carries an error, the
error position is at or after `pos` and every token starts strictly before
it. -/
def PosOk (r : ScanResult) (pos : Nat) : Prop :=
  (∀ t ∈ r.toks, pos ≤ t.pos) ∧
  (∀ c l p, r.status = .unexpectedChar c l p →
    pos ≤ p ∧ ∀ t ∈ r.toks, t.pos < p) ∧
  (∀ p, r.status = .untermComment p →
    pos ≤ p ∧ ∀ t ∈ r.toks, t.pos < p)

theorem posOk_mono {r : ScanResult} {p q : Nat} (h : PosOk r q) (hpq : p ≤ q) :
    PosOk r p := by
  obtain ⟨h1, h2, h3⟩ := h
  refine ⟨fun t ht => hpq.trans (h1 t ht), ?_, ?_⟩
  · intro c l pe he
    exact ⟨hpq.trans (h2 c l pe he).1, (h2 c l pe he).2⟩
  · intro pe he
    exact ⟨hpq.trans (h3 pe he).1, (h3 pe he).2⟩

theorem posOk_consT {t : STok} {r : ScanResult} {pos pos2 : Nat}
    (htok : t.pos = pos) (hlt : pos < pos2) (hr : PosOk r pos2) :
    PosOk (consT t r) pos := by
  obtain ⟨h1, h2, h3⟩ := hr
  refine ⟨?_, ?_, ?_⟩
  · intro u hu
    rcases List.mem_cons.mp hu with rfl | hu2
    · omega
    · have := h1 u hu2
      omega
  · intro c l pe he
    have hh := h2 c l pe he
    refine ⟨by omega, ?_⟩
    intro u hu
    rcases List.mem_cons.mp hu with rfl | hu2
    · omega
    · exact hh.2 u hu2
  · intro pe he
    have hh := h3 pe he
    refine ⟨by omega, ?_⟩
    intro u hu
    rcases List.mem_cons.mp hu with rfl | hu2
    · omega
    · exact hh.2 u hu2

theorem posOk_appendT {ts : List STok} {r : ScanResult} {pos pos2 : Nat}
    (hts : ∀ t ∈ ts, pos ≤ t.pos ∧ t.pos < pos2) (hle : pos ≤ pos2)
    (hr : PosOk r pos2) : PosOk (appendT ts r) pos := by
  obtain ⟨h1, h2, h3⟩ := hr
  refine ⟨?_, ?_, ?_⟩
  · intro u hu
    rcases List.mem_append.mp hu with hu2 | hu2
    · exact (hts u hu2).1
    · have := h1 u hu2
      omega
  · intro c l pe he
    have hh := h2 c l pe he
    refine ⟨by omega, ?_⟩
    intro u hu
    rcases List.mem_append.mp hu with hu2 | hu2
    · have := (hts u hu2).2
      omega
    · exact hh.2 u hu2
  · intro pe he
    have hh := h3 pe he
    refine ⟨by omega, ?_⟩
    intro u hu
    rcases List.mem_append.mp hu with hu2 | hu2
    · have := (hts u hu2).2
      omega
    · exact hh.2 u hu2

/-- Unfolding equation for the radix-point branch of the numeric loop. -/
theorem scanNum_dot_eq (rest num : List Char) (hasR : Bool) (accS pos line : Nat) :
    scanNum ('.' :: rest) num hasR accS pos line =
      (⟨"NUMERIC CONSTANT", num ++ '.' :: rest.takeWhile isDigitC, line, accS⟩ ::
        (scanNum (rest.dropWhile isDigitC) [] true
          (pos + 1 + (rest.takeWhile isDigitC).length)
          (pos + 1 + (rest.takeWhile isDigitC).length) line).1,
       (scanNum (rest.dropWhile isDigitC) [] true
          (pos + 1 + (rest.takeWhile isDigitC).length)
          (pos + 1 + (rest.takeWhile isDigitC).length) line).2.1,
       (scanNum (rest.dropWhile isDigitC) [] true
          (pos + 1 + (rest.takeWhile isDigitC).length)
          (pos + 1 + (rest.takeWhile isDigitC).length) line).2.2) := by
  rw [scanNum, if_neg (by decide), if_pos rfl]

theorem scanNum_pos (cs num : List Char) (hasR : Bool) (accS pos line : Nat)
    (hinv : accS < pos ∨ (num = [] ∧ accS = pos ∧ hasR = true)) :
    pos ≤ (scanNum cs num hasR accS pos line).2.2 ∧
    ∀ t ∈ (scanNum cs num hasR accS pos line).1,
      accS ≤ t.pos ∧ t.pos < (scanNum cs num hasR accS pos line).2.2 := by
  induction cs, num, hasR, accS, pos, line using scanNum.induct with
  | case1 num hasR accS pos line =>
    rw [scanNum]
    cases hasR
    · refine ⟨Nat.le_refl _, ?_⟩
      intro t ht
      simp only [Bool.false_eq_true, if_false, List.mem_singleton] at ht
      subst ht
      rcases hinv with h | ⟨-, -, h⟩
      · exact ⟨Nat.le_refl _, h⟩
      · exact absurd h (by decide)
    · refine ⟨Nat.le_refl _, ?_⟩
      intro t ht
      simp at ht
  | case2 c rest num hasR accS pos line hd ih =>
    rw [scanNum]
    simp only [hd, if_true]
    have hinv2 : accS < pos + 1 ∨
        (num ++ [c] = [] ∧ accS = pos + 1 ∧ hasR = true) := by
      left
      rcases hinv with h | ⟨-, h, -⟩
      · omega
      · omega
    have := ih hinv2
    refine ⟨by omega, this.2⟩
  | case3 rest num hasR accS pos line ds rest2 hdot ih =>
    have hrec := ih (Or.inr ⟨rfl, rfl, rfl⟩)
    have haccpos : accS ≤ pos := by
      rcases hinv with h | ⟨-, h, -⟩
      · omega
      · omega
    rw [scanNum_dot_eq]
    have hple : pos + 1 + (rest.takeWhile isDigitC).length ≤
        (scanNum (rest.dropWhile isDigitC) [] true
          (pos + 1 + (rest.takeWhile isDigitC).length)
          (pos + 1 + (rest.takeWhile isDigitC).length) line).2.2 := hrec.1
    refine ⟨le_trans (show pos ≤ pos + 1 + (rest.takeWhile isDigitC).length by omega)
      hple, ?_⟩
    intro t ht
    rcases List.mem_cons.mp ht with rfl | ht2
    · have hlt : accS < pos + 1 + (rest.takeWhile isDigitC).length := by omega
      exact ⟨Nat.le_refl _, lt_of_lt_of_le hlt hple⟩
    · have h2 := hrec.2 t ht2
      refine ⟨le_trans haccpos ?_, h2.2⟩
      have := h2.1
      omega
  | case4 c rest num hasR accS pos line hd hdot =>
    rw [scanNum]
    simp only [hd, Bool.false_eq_true, if_false, if_neg hdot]
    cases hasR
    · refine ⟨Nat.le_refl _, ?_⟩
      intro t ht
      simp only [Bool.false_eq_true, if_false, List.mem_singleton] at ht
      subst ht
      rcases hinv with h | ⟨-, -, h⟩
      · exact ⟨Nat.le_refl _, h⟩
      · exact absurd h (by decide)
    · refine ⟨Nat.le_refl _, ?_⟩
      intro t ht
      simp at ht

/-- Entry form of `scanNum_pos` for the call made by the dispatch loop. -/
theorem scanNum_pos_entry (c : Char) (rest : List Char) (pos line : Nat)
    (h : isDigitC c = true ∨ (c = '.' ∧ isDigitC ((c :: rest).getD 1 '\x00') = true)) :
    pos ≤ (scanNum (c :: rest) [] false pos pos line).2.2 ∧
    ∀ t ∈ (scanNum (c :: rest) [] false pos pos line).1,
      pos ≤ t.pos ∧ t.pos < (scanNum (c :: rest) [] false pos pos line).2.2 := by
  rcases h with h | ⟨h, -⟩
  · rw [scanNum]
    simp only [h, if_true]
    have := scanNum_pos rest ([] ++ [c]) false pos (pos + 1) line (by left; omega)
    refine ⟨by omega, ?_⟩
    intro t ht
    have h2 := this.2 t ht
    exact ⟨h2.1, h2.2⟩
  · subst h
    rw [scanNum_dot_eq]
    have hrec := scanNum_pos (rest.dropWhile isDigitC) [] true
      (pos + 1 + (rest.takeWhile isDigitC).length)
      (pos + 1 + (rest.takeWhile isDigitC).length) line
      (by right; exact ⟨rfl, rfl, rfl⟩)
    have hple : pos + 1 + (rest.takeWhile isDigitC).length ≤
        (scanNum (rest.dropWhile isDigitC) [] true
          (pos + 1 + (rest.takeWhile isDigitC).length)
          (pos + 1 + (rest.takeWhile isDigitC).length) line).2.2 := hrec.1
    refine ⟨le_trans (show pos ≤ pos + 1 + (rest.takeWhile isDigitC).length by omega)
      hple, ?_⟩
    intro t ht
    rcases List.mem_cons.mp ht with rfl | ht2
    · have hlt : pos < pos + 1 + (rest.takeWhile isDigitC).length := by omega
      exact ⟨Nat.le_refl _, lt_of_lt_of_le hlt hple⟩
    · have h2 := hrec.2 t ht2
      refine ⟨?_, h2.2⟩
      have := h2.1
      omega

theorem takeWhile_cons_length_pos (p : Char → Bool) (c : Char) (l : List Char)
    (h : p c = true) : 1 ≤ ((c :: l).takeWhile p).length := by
  rw [List.takeWhile_cons, if_pos h]
  simp

/-- Every token emitted by the dispatch loop starts at or after the current
index, and no token starts at or after the position of a fatal error. -/
theorem scanGo_pos (cs : List Char) (pos line : Nat) :
    PosOk (scanGo cs pos line) pos := by
  induction cs, pos, line using scanGo.induct with
  | case1 pos line =>
    rw [scanGo]
    refine ⟨?_, ?_, ?_⟩
    · intro t ht
      simp at ht
    · intro c l p h
      cases h
    · intro p h
      cases h
  | case2 rest pos line ih =>
    rw [scanGo, if_pos rfl]
    exact posOk_mono ih (by omega)
  | case3 c rest pos line h1 h2 ih =>
    rw [scanGo, if_neg h1, if_pos h2]
    exact posOk_mono ih (by omega)
  | case4 c rest pos line h1 h2 h3 rest2 ih =>
    rw [scanGo, if_neg h1, if_neg h2, if_pos h3]
    exact posOk_consT rfl (by omega) ih
  | case5 c rest pos line h1 h2 h3 h4 line2 hsb =>
    rw [scanGo, if_neg h1, if_neg h2, if_neg h3, if_pos h4, hsb]
    refine ⟨?_, ?_, ?_⟩
    · intro t ht
      simp at ht
    · intro c2 l2 p2 h
      cases h
    · intro p2 h
      cases h
      refine ⟨Nat.le_refl _, ?_⟩
      intro t ht
      simp at ht
  | case6 c rest pos line h1 h2 h3 h4 rest2 line2 hsb ih =>
    rw [scanGo, if_neg h1, if_neg h2, if_neg h3, if_pos h4, hsb]
    have hlen := skipBlock_some_length hsb
    refine posOk_consT rfl ?_ ih
    have : (rest.drop 1).length ≤ rest.length := by simp
    simp only [List.length_cons]
    omega
  | case7 rest pos line h1 h2 h3 h4 dir rest2 ih =>
    rw [scanGo, if_neg h1, if_neg h2, if_neg h3, if_neg h4, if_pos rfl]
    refine posOk_consT rfl ?_ ih
    have := takeWhile_cons_length_pos (fun x => x != '\n') '#' rest (by decide)
    simp only [dir]
    omega
  | case8 c rest pos line h1 h2 h3 h4 h5 h6 ih =>
    rw [scanGo, if_neg h1, if_neg h2, if_neg h3, if_neg h4, if_neg h5, if_pos h6]
    exact posOk_consT rfl (by omega) ih
  | case9 c rest pos line h1 h2 h3 h4 h5 h6 h7 ih =>
    rw [scanGo, if_neg h1, if_neg h2, if_neg h3, if_neg h4, if_neg h5, if_neg h6,
      if_pos h7]
    exact posOk_consT rfl (by omega) ih
  | case10 c rest pos line h1 h2 h3 h4 h5 h6 h7 h8 ih =>
    rw [scanGo, if_neg h1, if_neg h2, if_neg h3, if_neg h4, if_neg h5, if_neg h6,
      if_neg h7, if_pos h8]
    exact posOk_consT rfl (by omega) ih
  | case11 c rest pos line h1 h2 h3 h4 h5 h6 h7 h8 h9 h10 ih =>
    exact absurd (h10.1 ▸ h9) (by decide)
  | case12 c rest pos line h1 h2 h3 h4 h5 h6 h7 h8 h9 h10 ih =>
    rw [scanGo, if_neg h1, if_neg h2, if_neg h3, if_neg h4, if_neg h5, if_neg h6,
      if_neg h7, if_neg h8, if_pos h9, if_neg h10]
    exact posOk_consT rfl (by omega) ih
  | case13 c rest pos line h1 h2 h3 h4 h5 h6 h7 h8 h9 h10 w rest2 ih =>
    rw [scanGo, if_neg h1, if_neg h2, if_neg h3, if_neg h4, if_neg h5, if_neg h6,
      if_neg h7, if_neg h8, if_neg h9, if_pos h10]
    refine posOk_consT rfl ?_ ih
    have hw : isWordC c = true := by
      rcases h10 with h | h
      · simp [isWordC, isAlnumC, h]
      · simp [isWordC, h]
    have := takeWhile_cons_length_pos isWordC c rest hw
    simp only [w]
    omega
  | case14 c rest pos line h1 h2 h3 h4 h5 h6 h7 h8 h9 h10 h11 r ih =>
    rw [scanGo, if_neg h1, if_neg h2, if_neg h3, if_neg h4, if_neg h5, if_neg h6,
      if_neg h7, if_neg h8, if_neg h9, if_neg h10, dif_pos h11]
    have hent := scanNum_pos_entry c rest pos line h11
    exact posOk_appendT hent.2 hent.1 ih
  | case15 c rest pos line h1 h2 h3 h4 h5 h6 h7 h8 h9 h10 h11 =>
    rw [scanGo, if_neg h1, if_neg h2, if_neg h3, if_neg h4, if_neg h5, if_neg h6,
      if_neg h7, if_neg h8, if_neg h9, if_neg h10, dif_neg h11]
    refine ⟨?_, ?_, ?_⟩
    · intro t ht
      simp at ht
    · intro c2 l2 p2 h
      cases h
      refine ⟨Nat.le_refl _, ?_⟩
      intro t ht
      simp at ht
    · intro p h
      cases h

/-- Claim C4 (confirmed): on a scan that ends with `UnexpectedCharacter` or
`UnterminatedBlockComment`, `main` reports exactly that one error (with
character and line for the unexpected character; the unterminated comment is
reported as an end-of-file condition), writes no `tokens.txt`, exits with
status 1, and no emitted token has a source position at or after the error
position. -/
theorem c4_fatal_errors (cs : List Char) :
    (∀ c l p, (scan cs).status = .unexpectedChar c l p →
      mainOutcome cs = ⟨1, false, [.unexpectedChar c (scan cs).line]⟩ ∧
      (scan cs).toks.all (fun t => decide (t.pos < p)) = true) ∧
    (∀ p, (scan cs).status = .untermComment p →
      mainOutcome cs = ⟨1, false, [.untermComment]⟩ ∧
      (scan cs).toks.all (fun t => decide (t.pos < p)) = true) := by
  by_cases hcs : cs = []
  · subst hcs
    constructor
    · intro c l p h
      exact absurd h (by rw [scan]; simp)
    · intro p h
      exact absurd h (by rw [scan]; simp)
  · have hscan : scan cs = scanGo cs 0 1 := by rw [scan, if_neg hcs]
    have hpos := scanGo_pos cs 0 1
    constructor
    · intro c l p h
      rw [hscan] at h
      constructor
      · rw [mainOutcome]
        simp only [if_neg hcs]
        rw [hscan, h]
      · rw [hscan]
        rw [List.all_eq_true]
        intro t ht
        have := (hpos.2.1 c l p h).2 t ht
        simpa using this
    · intro p h
      rw [hscan] at h
      constructor
      · rw [mainOutcome]
        simp only [if_neg hcs]
        rw [hscan, h]
      · rw [hscan]
        rw [List.all_eq_true]
        intro t ht
        have := (hpos.2.2 p h).2 t ht
        simpa using this

/-- Witness for C4: the unexpected character `$` at the very start of the
input, and an unterminated block comment opening at position 0. -/
theorem c4_fatal_errors_witness :
    (mainOutcome "$".data = ⟨1, false, [.unexpectedChar '$' (scan "$".data).line]⟩ ∧
      (scan "$".data).toks.all (fun t => decide (t.pos < 0)) = true) ∧
    (mainOutcome "/*".data = ⟨1, false, [.untermComment]⟩ ∧
      (scan "/*".data).toks.all (fun t => decide (t.pos < 0)) = true) :=
  ⟨(c4_fatal_errors "$".data).1 '$' 1 0 (by
      simp [scan, scanGo, scanNum, skipBlock, consT, appendT, isSpaceC, isDigitC,
        isAlphaC, isWordC, isAlnumC, keywords, multiCharOperators,
        singleCharOperators, specialChars]),
   (c4_fatal_errors "/*".data).2 0 (by
      simp [scan, scanGo, scanNum, skipBlock, consT, appendT, isSpaceC, isDigitC,
        isAlphaC, isWordC, isAlnumC, keywords, multiCharOperators,
        singleCharOperators, specialChars])⟩

/-- Claim C10 (confirmed): whenever the dispatch loop arrives at the three
characters p, o, w the scanner emits a single `OPERATOR` token `pow` and
advances three characters; consequently `pow` is never emitted as an
`IDENTIFIER`, and `power` is split into the `OPERATOR` `pow` followed by
the `IDENTIFIER` `er`. -/
theorem c10_pow_operator :
    (∀ (rest : List Char) (pos line : Nat),
      scanGo ('p' :: 'o' :: 'w' :: rest) pos line =
        consT ⟨"OPERATOR", ['p', 'o', 'w'], line, pos⟩ (scanGo rest (pos + 3) line)) ∧
    (∀ cs : List Char, (scan cs).toks.all
      (fun t => !(t.cls == "IDENTIFIER" && t.val == ['p', 'o', 'w'])) = true) ∧
    scan "power".data =
      ⟨[⟨"OPERATOR", ['p', 'o', 'w'], 1, 0⟩, ⟨"IDENTIFIER", ['e', 'r'], 1, 3⟩],
        .ok, 1⟩ := by
  refine ⟨fun rest pos line => scanGo_op3 'p' 'o' 'w' rest pos line (by decide),
    fun cs => ?_, by
      simp [scan, scanGo, scanNum, skipBlock, consT, appendT, isSpaceC, isDigitC,
        isAlphaC, isWordC, isAlnumC, keywords, multiCharOperators,
        singleCharOperators, specialChars]⟩
  rw [scan]
  split
  · rfl
  · exact scanGo_no_pow_ident cs 0 1

end CScan

namespace CParse

/-- A token as loaded by the parser (`C_lange_Parser_in_Cpp.cpp`): lexeme
text, lexical class, and line number (`-1` for the synthetic EOF token). -/
structure PTok where
  value : String
  cls : String
  line : Int
  deriving DecidableEq, Repr

/-- A parse-tree node (`ParseNode`): category tag, discriminating lexeme,
source line, ordered children. -/
inductive PNode where
  | mk (type : String) (value : String) (line : Int) (children : List PNode)

def PNode.type : PNode → String
  | .mk t _ _ _ => t

def PNode.value : PNode → String
  | .mk _ v _ _ => v

def PNode.line : PNode → Int
  | .mk _ _ l _ => l

def PNode.children : PNode → List PNode
  | .mk _ _ _ cs => cs

mutual

def PNode.deq : (a b : PNode) → Decidable (a = b)
  | .mk t1 v1 l1 cs1, .mk t2 v2 l2 cs2 =>
    match decEq t1 t2 with
    | isFalse h => isFalse (fun he => by cases he; exact h rfl)
    | isTrue h1 =>
      match decEq v1 v2 with
      | isFalse h => isFalse (fun he => by cases he; exact h rfl)
      | isTrue h2 =>
        match decEq l1 l2 with
        | isFalse h => isFalse (fun he => by cases he; exact h rfl)
        | isTrue h3 =>
          match PNode.deqList cs1 cs2 with
          | isFalse h => isFalse (fun he => by cases he; exact h rfl)
          | isTrue h4 => isTrue (by rw [h1, h2, h3, h4])

def PNode.deqList : (a b : List PNode) → Decidable (a = b)
  | [], [] => isTrue rfl
  | [], _ :: _ => isFalse (fun h => by cases h)
  | _ :: _, [] => isFalse (fun h => by cases h)
  | x :: xs, y :: ys =>
    match PNode.deq x y, PNode.deqList xs ys with
    | isTrue h1, isTrue h2 => isTrue (by rw [h1, h2])
    | isFalse h1, _ => isFalse (fun h => by injection h with ha hb; exact h1 ha)
    | isTrue _, isFalse h2 => isFalse (fun h => by injection h with ha hb; exact h2 hb)

end

instance : DecidableEq PNode := PNode.deq

/-- The parser's fatal diagnostics, abstracted from the exact message text;
`loc` is the line of the offending token, or `none` at end of input. -/
inductive PErr where
  | fuel
  | expected (cls : String) (val : Option String) (gotCls gotVal : String)
      (loc : Option Int)
  | unrecognizedTopLevel (loc : Option Int)
  | expectedFuncBodyOrSemi (loc : Option Int)
  | expectedPrimary (loc : Option Int)
  deriving DecidableEq, Repr

/-- The two comment classes skipped transparently by the parser. -/
def isComment (t : PTok) : Bool :=
  t.cls == "Single-Line Comment" || t.cls == "Multi-Line Comment"

/-- `skip_comments`: move the cursor past comment tokens.  The state is the
list of tokens from the cursor onwards. -/
def skipC (ts : List PTok) : List PTok := ts.dropWhile isComment

/-- The static EOF token of `peek`. -/
def eofTok : PTok := ⟨"", "EOF", -1⟩

/-- `peek`: the first meaningful token, or the EOF token. -/
def peekT (ts : List PTok) : PTok :=
  match skipC ts with
  | [] => eofTok
  | t :: _ => t

/-- `lookahead` stepping: applied to an already comment-skipped list,
`lk 0` is the current token and each further step moves one raw position and
re-skips comments. -/
def lk : Nat → List PTok → PTok
  | _, [] => eofTok
  | 0, t :: _ => t
  | n + 1, _ :: rest => lk n (skipC rest)

/-- Line reported by `report_error` for a (comment-skipped) state. -/
def locOf (ts : List PTok) : Option Int :=
  match ts with
  | [] => none
  | t :: _ => some t.line

/-- `match`: consume the next meaningful token when its class (and value, if
given) agree, otherwise fail with an `expected` diagnostic. -/
def matchT (cls : String) (val : Option String) (ts : List PTok) :
    Except PErr (PTok × List PTok) :=
  let ts2 := skipC ts
  let t := peekT ts
  if t.cls = cls ∧ (val = none ∨ val = some t.value) then
    .ok (t, ts2.tail)
  else
    .error (.expected cls val t.cls t.value (locOf ts2))

mutual

/-- `parse_program`: note the initial `peek` for the root line number (0 on
an empty token vector) and the `is_at_end` loop over raw positions. -/
def pProgram : Nat → List PTok → Except PErr (PNode × List PTok)
  | 0, _ => .error .fuel
  | fuel + 1, ts0 =>
    let line : Int := if ts0 = [] then 0 else (peekT ts0).line
    let ts1 := if ts0 = [] then ts0 else skipC ts0
    match pProgLoop fuel ts1 with
    | .error e => .error e
    | .ok (cs, ts2) => .ok (.mk "Program" "" line cs, ts2)

def pProgLoop : Nat → List PTok → Except PErr (List PNode × List PTok)
  | 0, _ => .error .fuel
  | fuel + 1, ts =>
    if ts = [] then .ok ([], ts)
    else
      match pTopLevel fuel ts with
      | .error e => .error e
      | .ok (n, ts2) =>
        match pProgLoop fuel ts2 with
        | .error e => .error e
        | .ok (ns, ts3) => .ok (n :: ns, ts3)

def pTopLevel : Nat → List PTok → Except PErr (PNode × List PTok)
  | 0, _ => .error .fuel
  | fuel + 1, ts0 =>
    let t := peekT ts0
    let ts := skipC ts0
    if t.cls = "PREPROCESSOR DIRECTIVE" then
      match matchT "PREPROCESSOR DIRECTIVE" none ts with
      | .error e => .error e
      | .ok (d, ts2) => .ok (.mk "PreprocessorDirective" d.value d.line [], ts2)
    else if t.cls = "KEYWORD" ∧ (t.value = "int" ∨ t.value = "float" ∨
        t.value = "char" ∨ t.value = "void" ∨ t.value = "const") then
      if (lk 2 ts).value = "(" then pFuncProto fuel ts
      else pVarDecl fuel ts
    else .error (.unrecognizedTopLevel (locOf ts))

def pFuncProto : Nat → List PTok → Except PErr (PNode × List PTok)
  | 0, _ => .error .fuel
  | fuel + 1, ts0 =>
    let startLine := (peekT ts0).line
    let ts := skipC ts0
    match matchT "KEYWORD" none ts with
    | .error e => .error e
    | .ok (typeTok, ts) =>
      match matchT "IDENTIFIER" none ts with
      | .error e => .error e
      | .ok (nameTok, ts) =>
        match matchT "SPECIAL CHARACTER" (some "(") ts with
        | .error e => .error e
        | .ok (_, ts) =>
          match matchT "SPECIAL CHARACTER" (some ")") ts with
          | .error e => .error e
          | .ok (_, ts) =>
            if (peekT ts).value = "\x7b" then
              match pBlock fuel (skipC ts) with
              | .error e => .error e
              | .ok (body, ts) =>
                .ok (.mk "FunctionDefinition" nameTok.value startLine
                  [.mk "TypeSpecifier" typeTok.value typeTok.line [], body], ts)
            else if (peekT ts).value = ";" then
              match matchT "SPECIAL CHARACTER" (some ";") (skipC ts) with
              | .error e => .error e
              | .ok (_, ts) =>
                .ok (.mk "FunctionPrototype" nameTok.value startLine
                  [.mk "TypeSpecifier" typeTok.value typeTok.line []], ts)
            else .error (.expectedFuncBodyOrSemi (locOf (skipC ts)))

def pVarDecl : Nat → List PTok → Except PErr (PNode × List PTok)
  | 0, _ => .error .fuel
  | fuel + 1, ts0 =>
    let startLine := (peekT ts0).line
    let ts := skipC ts0
    match (if (peekT ts).value = "const" then
        match matchT "KEYWORD" (some "const") (skipC ts) with
        | .error e => .error e
        | .ok (t, ts2) => .ok ([PNode.mk "Keyword" t.value t.line []], ts2)
      else .ok ([], skipC ts) : Except PErr (List PNode × List PTok)) with
    | .error e => .error e
    | .ok (constCs, ts) =>
      match matchT "KEYWORD" none ts with
      | .error e => .error e
      | .ok (typeTok, ts) =>
        match pVarDeclLoop fuel ts with
        | .error e => .error e
        | .ok (decls, ts) =>
          match matchT "SPECIAL CHARACTER" (some ";") ts with
          | .error e => .error e
          | .ok (_, ts) =>
            .ok (.mk "VariableDeclarationStatement" "" startLine
              (constCs ++ PNode.mk "TypeSpecifier" typeTok.value typeTok.line [] :: decls),
              ts)

def pVarDeclLoop : Nat → List PTok → Except PErr (List PNode × List PTok)
  | 0, _ => .error .fuel
  | fuel + 1, ts =>
    match (if (peekT ts).value = "," then
        match matchT "SPECIAL CHARACTER" (some ",") (skipC ts) with
        | .error e => .error e
        | .ok (_, ts2) => .ok ts2
      else .ok (skipC ts) : Except PErr (List PTok)) with
    | .error e => .error e
    | .ok ts =>
      match matchT "IDENTIFIER" none ts with
      | .error e => .error e
      | .ok (varTok, ts) =>
        match (if (peekT ts).value = "=" then
            match matchT "OPERATOR" (some "=") (skipC ts) with
            | .error e => .error e
            | .ok (_, ts2) =>
              let initLine := (peekT ts2).line
              match pExpression fuel (skipC ts2) with
              | .error e => .error e
              | .ok (e, ts3) => .ok ([PNode.mk "Initializer" "=" initLine [e]], ts3)
          else .ok ([], skipC ts) : Except PErr (List PNode × List PTok)) with
        | .error e => .error e
        | .ok (initCs, ts) =>
          let decl := PNode.mk "Declarator" varTok.value varTok.line initCs
          if (peekT ts).value = "," then
            match pVarDeclLoop fuel (skipC ts) with
            | .error e => .error e
            | .ok (ds, ts2) => .ok (decl :: ds, ts2)
          else .ok ([decl], skipC ts)

def pStatement : Nat → List PTok → Except PErr (PNode × List PTok)
  | 0, _ => .error .fuel
  | fuel + 1, ts0 =>
    let v := (peekT ts0).value
    let ts := skipC ts0
    if v = "if" then pIf fuel ts
    else if v = "for" then pFor fuel ts
    else if v = "return" then pReturn fuel ts
    else if v = "\x7b" then pBlock fuel ts
    else if v = ";" then
      let line := (peekT ts).line
      match matchT "SPECIAL CHARACTER" (some ";") ts with
      | .error e => .error e
      | .ok (_, ts2) => .ok (.mk "EmptyStatement" ";" line [], ts2)
    else if v = "const" ∨ v = "int" ∨ v = "float" ∨ v = "char" then
      pVarDecl fuel ts
    else pExprStmt fuel ts

def pBlock : Nat → List PTok → Except PErr (PNode × List PTok)
  | 0, _ => .error .fuel
  | fuel + 1, ts0 =>
    let startLine := (peekT ts0).line
    let ts := skipC ts0
    match matchT "SPECIAL CHARACTER" (some "\x7b") ts with
    | .error e => .error e
    | .ok (_, ts) =>
      match pBlockLoop fuel ts with
      | .error e => .error e
      | .ok (cs, ts) =>
        match matchT "SPECIAL CHARACTER" (some "\x7d") ts with
        | .error e => .error e
        | .ok (_, ts) => .ok (.mk "BlockStatement" "\x7b\x7d" startLine cs, ts)

def pBlockLoop : Nat → List PTok → Except PErr (List PNode × List PTok)
  | 0, _ => .error .fuel
  | fuel + 1, ts =>
    if (peekT ts).value = "\x7d" then .ok ([], skipC ts)
    else
      match pStatement fuel (skipC ts) with
      | .error e => .error e
      | .ok (s, ts2) =>
        match pBlockLoop fuel ts2 with
        | .error e => .error e
        | .ok (ss, ts3) => .ok (s :: ss, ts3)

def pIf : Nat → List PTok → Except PErr (PNode × List PTok)
  | 0, _ => .error .fuel
  | fuel + 1, ts0 =>
    let startLine := (peekT ts0).line
    let ts := skipC ts0
    match matchT "KEYWORD" (some "if") ts with
    | .error e => .error e
    | .ok (_, ts) =>
      match matchT "SPECIAL CHARACTER" (some "(") ts with
      | .error e => .error e
      | .ok (_, ts) =>
        match pExpression fuel ts with
        | .error e => .error e
        | .ok (cond, ts) =>
          match matchT "SPECIAL CHARACTER" (some ")") ts with
          | .error e => .error e
          | .ok (_, ts) =>
            match pStatement fuel ts with
            | .error e => .error e
            | .ok (thenS, ts) =>
              if (peekT ts).value = "else" then
                match matchT "KEYWORD" (some "else") (skipC ts) with
                | .error e => .error e
                | .ok (_, ts2) =>
                  match pStatement fuel ts2 with
                  | .error e => .error e
                  | .ok (elseS, ts3) =>
                    .ok (.mk "IfStatement" "if" startLine [cond, thenS, elseS], ts3)
              else .ok (.mk "IfStatement" "if" startLine [cond, thenS], skipC ts)

def pReturn : Nat → List PTok → Except PErr (PNode × List PTok)
  | 0, _ => .error .fuel
  | fuel + 1, ts0 =>
    let startLine := (peekT ts0).line
    let ts := skipC ts0
    match matchT "KEYWORD" (some "return") ts with
    | .error e => .error e
    | .ok (_, ts) =>
      match (if ¬ (peekT ts).value = ";" then
          match pExpression fuel (skipC ts) with
          | .error e => .error e
          | .ok (e, ts2) => .ok ([e], ts2)
        else .ok ([], skipC ts) : Except PErr (List PNode × List PTok)) with
      | .error e => .error e
      | .ok (cs, ts) =>
        match matchT "SPECIAL CHARACTER" (some ";") ts with
        | .error e => .error e
        | .ok (_, ts) => .ok (.mk "ReturnStatement" "return" startLine cs, ts)

def pExprStmt : Nat → List PTok → Except PErr (PNode × List PTok)
  | 0, _ => .error .fuel
  | fuel + 1, ts0 =>
    let startLine := (peekT ts0).line
    let ts := skipC ts0
    match pExpression fuel ts with
    | .error e => .error e
    | .ok (e, ts) =>
      match matchT "SPECIAL CHARACTER" (some ";") ts with
      | .error e => .error e
      | .ok (_, ts) => .ok (.mk "ExpressionStatement" "" startLine [e], ts)

def pFor : Nat → List PTok → Except PErr (PNode × List PTok)
  | 0, _ => .error .fuel
  | fuel + 1, ts0 =>
    let startLine := (peekT ts0).line
    let ts := skipC ts0
    match matchT "KEYWORD" (some "for") ts with
    | .error e => .error e
    | .ok (_, ts) =>
      match matchT "SPECIAL CHARACTER" (some "(") ts with
      | .error e => .error e
      | .ok (_, ts) =>
        match (if (peekT ts).value = ";" then
            match matchT "SPECIAL CHARACTER" (some ";") (skipC ts) with
            | .error e => .error e
            | .ok (_, ts2) => .ok (PNode.mk "Empty" "initializer" startLine [], ts2)
          else if (peekT ts).value = "int" ∨ (peekT ts).value = "char" ∨
              (peekT ts).value = "float" then
            pVarDecl fuel (skipC ts)
          else pExprStmt fuel (skipC ts) : Except PErr (PNode × List PTok)) with
        | .error e => .error e
        | .ok (initN, ts) =>
          match (if (peekT ts).value = ";" then
              match matchT "SPECIAL CHARACTER" (some ";") (skipC ts) with
              | .error e => .error e
              | .ok (_, ts2) => .ok (PNode.mk "Empty" "condition" startLine [], ts2)
            else
              match pExpression fuel (skipC ts) with
              | .error e => .error e
              | .ok (e, ts2) =>
                match matchT "SPECIAL CHARACTER" (some ";") ts2 with
                | .error e => .error e
                | .ok (_, ts3) => .ok (e, ts3) : Except PErr (PNode × List PTok)) with
          | .error e => .error e
          | .ok (condN, ts) =>
            match (if (peekT ts).value = ")" then
                .ok (PNode.mk "Empty" "increment" startLine [], skipC ts)
              else pExpression fuel (skipC ts) : Except PErr (PNode × List PTok)) with
            | .error e => .error e
            | .ok (incrN, ts) =>
              match matchT "SPECIAL CHARACTER" (some ")") ts with
              | .error e => .error e
              | .ok (_, ts) =>
                match pStatement fuel ts with
                | .error e => .error e
                | .ok (body, ts) =>
                  .ok (.mk "ForStatement" "for" startLine
                    [initN, condN, incrN, body], ts)

def pExpression : Nat → List PTok → Except PErr (PNode × List PTok)
  | 0, _ => .error .fuel
  | fuel + 1, ts => pAssignment fuel ts

def pAssignment : Nat → List PTok → Except PErr (PNode × List PTok)
  | 0, _ => .error .fuel
  | fuel + 1, ts0 =>
    let startLine := (peekT ts0).line
    let ts := skipC ts0
    match pEquality fuel ts with
    | .error e => .error e
    | .ok (l, ts) =>
      if (peekT ts).value = "=" then
        match matchT "OPERATOR" (some "=") (skipC ts) with
        | .error e => .error e
        | .ok (op, ts2) =>
          match pAssignment fuel ts2 with
          | .error e => .error e
          | .ok (r, ts3) =>
            .ok (.mk "AssignmentExpression" op.value startLine [l, r], ts3)
      else .ok (l, skipC ts)

def pEquality : Nat → List PTok → Except PErr (PNode × List PTok)
  | 0, _ => .error .fuel
  | fuel + 1, ts =>
    match pRelational fuel ts with
    | .error e => .error e
    | .ok (l, ts) => pEqLoop fuel l ts

def pEqLoop : Nat → PNode → List PTok → Except PErr (PNode × List PTok)
  | 0, _, _ => .error .fuel
  | fuel + 1, l, ts =>
    if (peekT ts).value = "==" ∨ (peekT ts).value = "!=" then
      match matchT "OPERATOR" none (skipC ts) with
      | .error e => .error e
      | .ok (op, ts2) =>
        match pRelational fuel ts2 with
        | .error e => .error e
        | .ok (r, ts3) =>
          pEqLoop fuel (.mk "BinaryExpression" op.value op.line [l, r]) ts3
    else .ok (l, skipC ts)

def pRelational : Nat → List PTok → Except PErr (PNode × List PTok)
  | 0, _ => .error .fuel
  | fuel + 1, ts =>
    match pAdditive fuel ts with
    | .error e => .error e
    | .ok (l, ts) => pRelLoop fuel l ts

def pRelLoop : Nat → PNode → List PTok → Except PErr (PNode × List PTok)
  | 0, _, _ => .error .fuel
  | fuel + 1, l, ts =>
    if (peekT ts).value = "<" ∨ (peekT ts).value = ">" ∨
        (peekT ts).value = "<=" ∨ (peekT ts).value = ">=" then
      match matchT "OPERATOR" none (skipC ts) with
      | .error e => .error e
      | .ok (op, ts2) =>
        match pAdditive fuel ts2 with
        | .error e => .error e
        | .ok (r, ts3) =>
          pRelLoop fuel (.mk "BinaryExpression" op.value op.line [l, r]) ts3
    else .ok (l, skipC ts)

def pAdditive : Nat → List PTok → Except PErr (PNode × List PTok)
  | 0, _ => .error .fuel
  | fuel + 1, ts =>
    match pMultiplicative fuel ts with
    | .error e => .error e
    | .ok (l, ts) => pAddLoop fuel l ts

def pAddLoop : Nat → PNode → List PTok → Except PErr (PNode × List PTok)
  | 0, _, _ => .error .fuel
  | fuel + 1, l, ts =>
    if (peekT ts).value = "+" ∨ (peekT ts).value = "-" then
      match matchT "OPERATOR" none (skipC ts) with
      | .error e => .error e
      | .ok (op, ts2) =>
        match pMultiplicative fuel ts2 with
        | .error e => .error e
        | .ok (r, ts3) =>
          pAddLoop fuel (.mk "BinaryExpression" op.value op.line [l, r]) ts3
    else .ok (l, skipC ts)

def pMultiplicative : Nat → List PTok → Except PErr (PNode × List PTok)
  | 0, _ => .error .fuel
  | fuel + 1, ts =>
    match pPrimary fuel ts with
    | .error e => .error e
    | .ok (l, ts) => pMulLoop fuel l ts

def pMulLoop : Nat → PNode → List PTok → Except PErr (PNode × List PTok)
  | 0, _, _ => .error .fuel
  | fuel + 1, l, ts =>
    if (peekT ts).value = "*" ∨ (peekT ts).value = "/" then
      match matchT "OPERATOR" none (skipC ts) with
      | .error e => .error e
      | .ok (op, ts2) =>
        match pPrimary fuel ts2 with
        | .error e => .error e
        | .ok (r, ts3) =>
          pMulLoop fuel (.mk "BinaryExpression" op.value op.line [l, r]) ts3
    else .ok (l, skipC ts)

def pPrimary : Nat → List PTok → Except PErr (PNode × List PTok)
  | 0, _ => .error .fuel
  | fuel + 1, ts0 =>
    let line := (peekT ts0).line
    let ts := skipC ts0
    if (peekT ts).cls = "NUMERIC CONSTANT" then
      match matchT "NUMERIC CONSTANT" none ts with
      | .error e => .error e
      | .ok (v, ts2) => .ok (.mk "Constant" v.value line [], ts2)
    else if (peekT ts).cls = "IDENTIFIER" then
      match matchT "IDENTIFIER" none ts with
      | .error e => .error e
      | .ok (v, ts2) => .ok (.mk "Identifier" v.value line [], ts2)
    else if (peekT ts).value = "(" then
      match matchT "SPECIAL CHARACTER" (some "(") ts with
      | .error e => .error e
      | .ok (_, ts2) =>
        match pExpression fuel ts2 with
        | .error e => .error e
        | .ok (e, ts3) =>
          match matchT "SPECIAL CHARACTER" (some ")") ts3 with
          | .error e => .error e
          | .ok (_, ts4) => .ok (e, ts4)
    else .error (.expectedPrimary (locOf ts))

end

end CParse

namespace CParse

theorem init_group_shape {f : Nat} {u : List PTok} {line : Int} {i : PNode}
    {u2 : List PTok}
    (h : (if (peekT u).value = ";" then
        match matchT "SPECIAL CHARACTER" (some ";") (skipC u) with
        | .error e => .error e
        | .ok (_, ts2) => .ok (PNode.mk "Empty" "initializer" line [], ts2)
      else if (peekT u).value = "int" ∨ (peekT u).value = "char" ∨
          (peekT u).value = "float" then
        pVarDecl f (skipC u)
      else pExprStmt f (skipC u) : Except PErr (PNode × List PTok)) = .ok (i, u2)) :
    i = PNode.mk "Empty" "initializer" line [] ∨
      (∃ f2 u3 u4, pVarDecl f2 u3 = .ok (i, u4)) ∨
      (∃ f2 u3 u4, pExprStmt f2 u3 = .ok (i, u4)) := by
  split at h
  · split at h
    · cases h
    · simp only [Except.ok.injEq, Prod.mk.injEq] at h
      exact Or.inl h.1.symm
  · split at h
    · exact Or.inr (Or.inl ⟨f, skipC u, u2, h⟩)
    · exact Or.inr (Or.inr ⟨f, skipC u, u2, h⟩)

theorem cond_group_shape {f : Nat} {u : List PTok} {line : Int} {i : PNode}
    {u2 : List PTok}
    (h : (if (peekT u).value = ";" then
        match matchT "SPECIAL CHARACTER" (some ";") (skipC u) with
        | .error e => .error e
        | .ok (_, ts2) => .ok (PNode.mk "Empty" "condition" line [], ts2)
      else
        match pExpression f (skipC u) with
        | .error e => .error e
        | .ok (e, ts2) =>
          match matchT "SPECIAL CHARACTER" (some ";") ts2 with
          | .error e => .error e
          | .ok (_, ts3) => .ok (e, ts3) : Except PErr (PNode × List PTok)) = .ok (i, u2)) :
    i = PNode.mk "Empty" "condition" line [] ∨
      ∃ f2 u3 u4, pExpression f2 u3 = .ok (i, u4) := by
  split at h
  · split at h
    · cases h
    · simp only [Except.ok.injEq, Prod.mk.injEq] at h
      exact Or.inl h.1.symm
  · split at h
    · cases h
    · rename_i e ts2 heq
      split at h
      · cases h
      · simp only [Except.ok.injEq, Prod.mk.injEq] at h
        obtain ⟨rfl, -⟩ := h
        exact Or.inr ⟨f, skipC u, ts2, heq⟩

theorem incr_group_shape {f : Nat} {u : List PTok} {line : Int} {i : PNode}
    {u2 : List PTok}
    (h : (if (peekT u).value = ")" then
        .ok (PNode.mk "Empty" "increment" line [], skipC u)
      else pExpression f (skipC u) : Except PErr (PNode × List PTok)) = .ok (i, u2)) :
    i = PNode.mk "Empty" "increment" line [] ∨
      ∃ f2 u3 u4, pExpression f2 u3 = .ok (i, u4) := by
  split at h
  · simp only [Except.ok.injEq, Prod.mk.injEq] at h
    exact Or.inl h.1.symm
  · exact Or.inr ⟨f, skipC u, u2, h⟩

/-- Claim C6 (confirmed): every successfully parsed for statement yields a
`ForStatement` node with exactly four children in source order —
initializer, condition, increment, body — where an empty initializer,
condition, or increment slot is an `Empty` node with value `initializer`,
`condition`, or `increment` (never a wrapper node), and a non-empty
initializer, condition, or increment child is the node produced by the
corresponding sub-parser itself. -/
theorem c6_for_statement_children (fuel : Nat) (ts : List PTok) (n : PNode)
    (rest : List PTok) (h : pFor fuel ts = .ok (n, rest)) :
    n.type = "ForStatement" ∧ n.value = "for" ∧ n.children.length = 4 ∧
    ∃ initN condN incrN body, n.children = [initN, condN, incrN, body] ∧
      (initN = PNode.mk "Empty" "initializer" n.line [] ∨
        (∃ f2 u u2, pVarDecl f2 u = .ok (initN, u2)) ∨
        (∃ f2 u u2, pExprStmt f2 u = .ok (initN, u2))) ∧
      (condN = PNode.mk "Empty" "condition" n.line [] ∨
        ∃ f2 u u2, pExpression f2 u = .ok (condN, u2)) ∧
      (incrN = PNode.mk "Empty" "increment" n.line [] ∨
        ∃ f2 u u2, pExpression f2 u = .ok (incrN, u2)) := by
  cases fuel with
  | zero =>
    rw [pFor] at h
    cases h
  | succ f =>
    rw [pFor] at h
    split at h
    · cases h
    · split at h
      · cases h
      · split at h
        · cases h
        · rename_i initN ts2 heqInit
          split at h
          · cases h
          · rename_i condN ts3 heqCond
            split at h
            · cases h
            · rename_i incrN ts4 heqIncr
              split at h
              · cases h
              · split at h
                · cases h
                · rename_i body ts5 heqBody
                  simp only [Except.ok.injEq, Prod.mk.injEq] at h
                  obtain ⟨rfl, rfl⟩ := h
                  exact ⟨rfl, rfl, rfl, initN, condN, incrN, body, rfl,
                    init_group_shape heqInit, cond_group_shape heqCond,
                    incr_group_shape heqIncr⟩

/-- Witness for C6: the for statement `for(;;);` parsed at fuel 20. -/
theorem c6_for_statement_children_witness :
    (PNode.mk "ForStatement" "for" 1
      [PNode.mk "Empty" "initializer" 1 [], PNode.mk "Empty" "condition" 1 [],
       PNode.mk "Empty" "increment" 1 [],
       PNode.mk "EmptyStatement" ";" 1 []]).type = "ForStatement" ∧
    (PNode.mk "ForStatement" "for" 1
      [PNode.mk "Empty" "initializer" 1 [], PNode.mk "Empty" "condition" 1 [],
       PNode.mk "Empty" "increment" 1 [],
       PNode.mk "EmptyStatement" ";" 1 []]).value = "for" ∧
    (PNode.mk "ForStatement" "for" 1
      [PNode.mk "Empty" "initializer" 1 [], PNode.mk "Empty" "condition" 1 [],
       PNode.mk "Empty" "increment" 1 [],
       PNode.mk "EmptyStatement" ";" 1 []]).children.length = 4 ∧
    ∃ initN condN incrN body,
      (PNode.mk "ForStatement" "for" 1
        [PNode.mk "Empty" "initializer" 1 [], PNode.mk "Empty" "condition" 1 [],
         PNode.mk "Empty" "increment" 1 [],
         PNode.mk "EmptyStatement" ";" 1 []]).children =
        [initN, condN, incrN, body] ∧
      (initN = PNode.mk "Empty" "initializer"
          (PNode.mk "ForStatement" "for" 1
            [PNode.mk "Empty" "initializer" 1 [], PNode.mk "Empty" "condition" 1 [],
             PNode.mk "Empty" "increment" 1 [],
             PNode.mk "EmptyStatement" ";" 1 []]).line [] ∨
        (∃ f2 u u2, pVarDecl f2 u = .ok (initN, u2)) ∨
        (∃ f2 u u2, pExprStmt f2 u = .ok (initN, u2))) ∧
      (condN = PNode.mk "Empty" "condition"
          (PNode.mk "ForStatement" "for" 1
            [PNode.mk "Empty" "initializer" 1 [], PNode.mk "Empty" "condition" 1 [],
             PNode.mk "Empty" "increment" 1 [],
             PNode.mk "EmptyStatement" ";" 1 []]).line [] ∨
        ∃ f2 u u2, pExpression f2 u = .ok (condN, u2)) ∧
      (incrN = PNode.mk "Empty" "increment"
          (PNode.mk "ForStatement" "for" 1
            [PNode.mk "Empty" "initializer" 1 [], PNode.mk "Empty" "condition" 1 [],
             PNode.mk "Empty" "increment" 1 [],
             PNode.mk "EmptyStatement" ";" 1 []]).line [] ∨
        ∃ f2 u u2, pExpression f2 u = .ok (incrN, u2)) :=
  c6_for_statement_children 20
    [⟨"for", "KEYWORD", 1⟩, ⟨"(", "SPECIAL CHARACTER", 1⟩,
     ⟨";", "SPECIAL CHARACTER", 1⟩, ⟨";", "SPECIAL CHARACTER", 1⟩,
     ⟨")", "SPECIAL CHARACTER", 1⟩, ⟨";", "SPECIAL CHARACTER", 1⟩]
    (PNode.mk "ForStatement" "for" 1
      [PNode.mk "Empty" "initializer" 1 [], PNode.mk "Empty" "condition" 1 [],
       PNode.mk "Empty" "increment" 1 [],
       PNode.mk "EmptyStatement" ";" 1 []]) [] (by rfl)

end CParse

namespace CParse

/-- Claim C7, counterexample: the token stream of
`for (const int i = 0; i < 10; i = i + 1) ;` is rejected — the for-statement
initializer dispatch only recognizes `int`, `char`, and `float`, so a
`const`-led declaration falls through to the expression-statement path and
fails at `parse_primary`. -/
theorem c7_counterexample :
    pFor 100
      [⟨"for", "KEYWORD", 1⟩, ⟨"(", "SPECIAL CHARACTER", 1⟩,
       ⟨"const", "KEYWORD", 1⟩, ⟨"int", "KEYWORD", 1⟩, ⟨"i", "IDENTIFIER", 1⟩,
       ⟨"=", "OPERATOR", 1⟩, ⟨"0", "NUMERIC CONSTANT", 1⟩,
       ⟨";", "SPECIAL CHARACTER", 1⟩, ⟨"i", "IDENTIFIER", 1⟩,
       ⟨"<", "OPERATOR", 1⟩, ⟨"10", "NUMERIC CONSTANT", 1⟩,
       ⟨";", "SPECIAL CHARACTER", 1⟩, ⟨"i", "IDENTIFIER", 1⟩,
       ⟨"=", "OPERATOR", 1⟩, ⟨"i", "IDENTIFIER", 1⟩, ⟨"+", "OPERATOR", 1⟩,
       ⟨"1", "NUMERIC CONSTANT", 1⟩, ⟨")", "SPECIAL CHARACTER", 1⟩,
       ⟨";", "SPECIAL CHARACTER", 1⟩] =
      .error (.expectedPrimary (some 1)) := by
  rfl

/-- Claim C7 (amended): the for-statement initializer slot accepts a
variable declaration exactly when its leading token is `int`, `char`, or
`float`; in that case the declaration is parsed by
`parse_variable_declaration` and its node — always a
`VariableDeclarationStatement` — becomes the first child of the
`ForStatement`.  A declaration beginning with `const` is not dispatched to
the declaration parser. -/
theorem c7_for_init_typekw :
    (∀ (fuel : Nat) (ts u1 u2 u3 : List PTok) (t1 t2 : PTok) (d : PNode),
      matchT "KEYWORD" (some "for") (skipC ts) = .ok (t1, u1) →
      matchT "SPECIAL CHARACTER" (some "(") u1 = .ok (t2, u2) →
      ((peekT u2).value = "int" ∨ (peekT u2).value = "char" ∨
        (peekT u2).value = "float") →
      pVarDecl fuel (skipC u2) = .ok (d, u3) →
      (∃ e, pFor (fuel + 1) ts = .error e) ∨
      (∃ n rest, pFor (fuel + 1) ts = .ok (n, rest) ∧
        n.children.head? = some d)) ∧
    (∀ (fuel : Nat) (ts : List PTok) (d : PNode) (rest : List PTok),
      pVarDecl fuel ts = .ok (d, rest) → d.type = "VariableDeclarationStatement") := by
  constructor
  · intro fuel ts u1 u2 u3 t1 t2 d h1 h2 h3 hvd
    rcases hres : pFor (fuel + 1) ts with e | nr
    · exact Or.inl ⟨e, rfl⟩
    · obtain ⟨n, rest⟩ := nr
      refine Or.inr ⟨n, rest, rfl, ?_⟩
      rw [pFor] at hres
      rw [h1] at hres
      simp only at hres
      rw [h2] at hres
      simp only at hres
      have hne : ¬ (peekT u2).value = ";" := by
        rcases h3 with h | h | h
        · rw [h]; decide
        · rw [h]; decide
        · rw [h]; decide
      rw [if_neg hne, if_pos h3, hvd] at hres
      simp only at hres
      split at hres
      · cases hres
      · split at hres
        · cases hres
        · split at hres
          · cases hres
          · split at hres
            · cases hres
            · simp only [Except.ok.injEq, Prod.mk.injEq] at hres
              obtain ⟨rfl, rfl⟩ := hres
              rfl
  · intro fuel ts d rest h
    cases fuel with
    | zero =>
      rw [pVarDecl] at h
      cases h
    | succ f =>
      rw [pVarDecl] at h
      split at h
      · cases h
      · split at h
        · cases h
        · split at h
          · cases h
          · split at h
            · cases h
            · simp only [Except.ok.injEq, Prod.mk.injEq] at h
              obtain ⟨rfl, rfl⟩ := h
              rfl

/-- Witness for C7: `for (int i = 0 ; ; ) ;` parses with the declaration of
`i` as first child, and a direct check that `parse_variable_declaration`
yields a `VariableDeclarationStatement` node. -/
theorem c7_for_init_typekw_witness :
    ((∃ e, pFor 21 [⟨"for", "KEYWORD", 1⟩, ⟨"(", "SPECIAL CHARACTER", 1⟩,
        ⟨"int", "KEYWORD", 1⟩, ⟨"i", "IDENTIFIER", 1⟩, ⟨"=", "OPERATOR", 1⟩,
        ⟨"0", "NUMERIC CONSTANT", 1⟩, ⟨";", "SPECIAL CHARACTER", 1⟩,
        ⟨";", "SPECIAL CHARACTER", 1⟩, ⟨")", "SPECIAL CHARACTER", 1⟩,
        ⟨";", "SPECIAL CHARACTER", 1⟩] = .error e) ∨
      (∃ n rest, pFor 21 [⟨"for", "KEYWORD", 1⟩, ⟨"(", "SPECIAL CHARACTER", 1⟩,
        ⟨"int", "KEYWORD", 1⟩, ⟨"i", "IDENTIFIER", 1⟩, ⟨"=", "OPERATOR", 1⟩,
        ⟨"0", "NUMERIC CONSTANT", 1⟩, ⟨";", "SPECIAL CHARACTER", 1⟩,
        ⟨";", "SPECIAL CHARACTER", 1⟩, ⟨")", "SPECIAL CHARACTER", 1⟩,
        ⟨";", "SPECIAL CHARACTER", 1⟩] = .ok (n, rest) ∧
        n.children.head? = some (PNode.mk "VariableDeclarationStatement" "" 1
          [PNode.mk "TypeSpecifier" "int" 1 [],
           PNode.mk "Declarator" "i" 1
             [PNode.mk "Initializer" "=" 1 [PNode.mk "Constant" "0" 1 []]]]))) ∧
    (PNode.mk "VariableDeclarationStatement" "" 1
      [PNode.mk "TypeSpecifier" "int" 1 [],
       PNode.mk "Declarator" "i" 1
         [PNode.mk "Initializer" "=" 1 [PNode.mk "Constant" "0" 1 []]]]).type =
      "VariableDeclarationStatement" :=
  ⟨c7_for_init_typekw.1 20
    [⟨"for", "KEYWORD", 1⟩, ⟨"(", "SPECIAL CHARACTER", 1⟩,
     ⟨"int", "KEYWORD", 1⟩, ⟨"i", "IDENTIFIER", 1⟩, ⟨"=", "OPERATOR", 1⟩,
     ⟨"0", "NUMERIC CONSTANT", 1⟩, ⟨";", "SPECIAL CHARACTER", 1⟩,
     ⟨";", "SPECIAL CHARACTER", 1⟩, ⟨")", "SPECIAL CHARACTER", 1⟩,
     ⟨";", "SPECIAL CHARACTER", 1⟩]
    _ _ _ _ _
    (PNode.mk "VariableDeclarationStatement" "" 1
      [PNode.mk "TypeSpecifier" "int" 1 [],
       PNode.mk "Declarator" "i" 1
         [PNode.mk "Initializer" "=" 1 [PNode.mk "Constant" "0" 1 []]]])
    (by rfl) (by rfl) (by left; rfl) (by rfl),
   c7_for_init_typekw.2 20
    [⟨"int", "KEYWORD", 1⟩, ⟨"i", "IDENTIFIER", 1⟩, ⟨"=", "OPERATOR", 1⟩,
     ⟨"0", "NUMERIC CONSTANT", 1⟩, ⟨";", "SPECIAL CHARACTER", 1⟩]
    (PNode.mk "VariableDeclarationStatement" "" 1
      [PNode.mk "TypeSpecifier" "int" 1 [],
       PNode.mk "Declarator" "i" 1
         [PNode.mk "Initializer" "=" 1 [PNode.mk "Constant" "0" 1 []]]])
    [] (by rfl)⟩

end CParse

namespace CParse

/-- Index of the first comma on a line (`string::find`). -/
def findComma (l : List Char) : Option Nat := l.findIdx? (fun c => c == ',')

/-- Index of the last comma on a line (`string::rfind`). -/
def rfindComma (l : List Char) : Option Nat :=
  match l.reverse.findIdx? (fun c => c == ',') with
  | none => none
  | some i => some (l.length - 1 - i)

/-- `string::substr(pos, n)`: `none` models the `std::out_of_range` throw
when `pos` exceeds the string length. -/
def substrC (l : List Char) (p n : Nat) : Option (List Char) :=
  if p > l.length then none else some ((l.drop p).take n)

/-- Value of a digit string. -/
def digitsVal (l : List Char) : Nat :=
  l.foldl (fun a c => a * 10 + (c.toNat - 48)) 0

/-- `std::stoi`: skip whitespace, optional sign, a nonempty digit prefix;
`none` models both `invalid_argument` and `out_of_range`. -/
def stoiC (l : List Char) : Option Int :=
  let l1 := l.dropWhile CScan.isSpaceC
  let sl : Int × List Char :=
    match l1 with
    | '-' :: r => (-1, r)
    | '+' :: r => (1, r)
    | _ => (1, l1)
  let digs := sl.2.takeWhile CScan.isDigitC
  if digs = [] then none
  else
    let v : Int := sl.1 * (digitsVal digs : Int)
    if v > 2147483647 ∨ v < -2147483648 then none else some v

/-- Warnings printed to the error channel by `load_tokens_from_file`. -/
inductive LoadWarning where
  | malformedLine (s : String)
  | badLineNumber (s : String)
  deriving DecidableEq, Repr

/-- What processing one line of the token file does. -/
inductive LineOutcome where
  | skipShort
  | warnSkip (w : LoadWarning)
  | tok (t : PTok)
  | crash
  deriving DecidableEq, Repr

/-- One iteration of the `getline` loop of `load_tokens_from_file`: lines
shorter than 5 characters are skipped silently; lines without two distinct
commas are skipped with a warning; otherwise the three fields are cut out
with `substr` (size_t underflow in a count selects the whole remainder;
an out-of-range start position is a crash) and `stoi` failure on the line
number field skips the line with a warning. -/
def processLine (s : String) : LineOutcome :=
  let l := s.data
  if l.length < 5 then .skipShort
  else
    match findComma l, rfindComma l with
    | none, _ => .warnSkip (.malformedLine s)
    | some _, none => .warnSkip (.malformedLine s)
    | some fc, some lc =>
      if fc = lc then .warnSkip (.malformedLine s)
      else
        match substrC l 1 (if fc = 0 then l.length else fc - 1),
            substrC l (fc + 2) (if lc < fc + 2 then l.length else lc - (fc + 2)),
            substrC l (lc + 2)
              (if l.length < lc + 3 then l.length else l.length - (lc + 2) - 1) with
        | some cl, some vl, some ls =>
          match stoiC ls with
          | none => .warnSkip (.badLineNumber s)
          | some n => .tok ⟨⟨vl⟩, ⟨cl⟩, n⟩
        | _, _, _ => .crash

/-- The `getline` loop: tokens and warnings accumulated in order; `.error`
models an uncaught `substr` exception aborting the process. -/
def loadGo : List String → Except Unit (List PTok × List LoadWarning)
  | [] => .ok ([], [])
  | s :: rest =>
    match processLine s with
    | .skipShort => loadGo rest
    | .warnSkip w =>
      match loadGo rest with
      | .error e => .error e
      | .ok (ts, ws) => .ok (ts, w :: ws)
    | .tok t =>
      match loadGo rest with
      | .error e => .error e
      | .ok (ts, ws) => .ok (t :: ts, ws)
    | .crash => .error ()

/-- A line lacking two distinct commas: no comma at all, or the first and
last comma coincide. -/
def lacksTwoCommas (s : String) : Bool :=
  match findComma s.data, rfindComma s.data with
  | none, _ => true
  | some _, none => true
  | some a, some b => a == b

/-- Claim C8, counterexample: the three-character line `<a>` is shorter than
5 characters and lacks two distinct commas, yet the loader skips it with no
warning at all — the short-line check `continue`s before any warning is
printed. -/
theorem c8_counterexample : loadGo ["<a>"] = .ok ([], []) := by
  rfl

/-- Claim C8 (amended): a line shorter than 5 characters is skipped
silently, without any warning; a line of 5 or more characters lacking two
distinct commas is skipped with a warning on the error channel; in both
cases loading of the remaining lines continues unchanged. -/
theorem c8_line_skipping (s : String) (ls : List String) :
    (s.data.length < 5 → loadGo (s :: ls) = loadGo ls) ∧
    (5 ≤ s.data.length → lacksTwoCommas s = true →
      loadGo (s :: ls) =
        (match loadGo ls with
         | .error e => .error e
         | .ok (ts, ws) => .ok (ts, LoadWarning.malformedLine s :: ws))) := by
  constructor
  · intro h5
    rw [loadGo]
    have hp : processLine s = .skipShort := by
      rw [processLine]
      simp only [if_pos h5]
    rw [hp]
  · intro h5 hlack
    rw [loadGo]
    have hp : processLine s = .warnSkip (.malformedLine s) := by
      rw [processLine]
      rw [if_neg (by omega)]
      rw [lacksTwoCommas] at hlack
      split at hlack
      · rfl
      · rfl
      · rename_i a b heq1 heq2
        have hab : a = b := by simpa using hlack
        rw [if_pos hab]
    rw [hp]

/-- Witness for C8: a short line and a 6-character line with no comma. -/
theorem c8_line_skipping_witness :
    loadGo ["ab"] = loadGo [] ∧
    loadGo ["<aaaa>"] =
      (match loadGo [] with
       | .error e => .error e
       | .ok (ts, ws) => .ok (ts, LoadWarning.malformedLine "<aaaa>" :: ws)) :=
  ⟨(c8_line_skipping "ab" []).1 (by decide),
   (c8_line_skipping "<aaaa>" []).2 (by decide) (by rfl)⟩

end CParse

namespace CParse

/-- Insertion of comment tokens at non-trailing positions: `Ins ts ts2`
holds when `ts2` is `ts` with comment tokens inserted, every inserted
comment being followed by at least one further token. -/
inductive Ins : List PTok → List PTok → Prop where
  | nil : Ins [] []
  | keep (t : PTok) {ts ts2 : List PTok} : Ins ts ts2 → Ins (t :: ts) (t :: ts2)
  | ins (c : PTok) {ts ts2 : List PTok} : isComment c = true → Ins ts ts2 →
      ts2 ≠ [] → Ins ts (c :: ts2)

theorem Ins.refl_list (ts : List PTok) : Ins ts ts := by
  induction ts with
  | nil => exact .nil
  | cons t r ih => exact .keep t ih

theorem ins_nil_iff {ts ts2 : List PTok} (h : Ins ts ts2) : ts = [] ↔ ts2 = [] := by
  induction h with
  | nil => exact Iff.rfl
  | keep t h2 ih =>
    constructor
    · intro he
      cases he
    · intro he
      cases he
  | ins c hc h2 hne ih =>
    constructor
    · intro he
      exact absurd (ih.mp he) hne
    · intro he
      cases he

theorem skipC_ins {ts ts2 : List PTok} (h : Ins ts ts2) :
    (skipC ts = [] ∧ skipC ts2 = []) ∨
    (∃ t r r2, skipC ts = t :: r ∧ skipC ts2 = t :: r2 ∧
      isComment t = false ∧ Ins r r2) := by
  induction h with
  | nil => exact Or.inl ⟨rfl, rfl⟩
  | keep t h2 ih =>
    cases hc : isComment t with
    | true =>
      rcases ih with ⟨ha, hb⟩ | ⟨u, r, r2, ha, hb, hu, hi⟩
      · refine Or.inl ⟨?_, ?_⟩
        · rw [skipC, List.dropWhile_cons, if_pos hc]
          exact ha
        · rw [skipC, List.dropWhile_cons, if_pos hc]
          exact hb
      · refine Or.inr ⟨u, r, r2, ?_, ?_, hu, hi⟩
        · rw [skipC, List.dropWhile_cons, if_pos hc]
          exact ha
        · rw [skipC, List.dropWhile_cons, if_pos hc]
          exact hb
    | false =>
      rename_i ts ts2
      refine Or.inr ⟨t, ts, ts2, ?_, ?_, hc, h2⟩
      · rw [skipC, List.dropWhile_cons, if_neg (by simp [hc])]
      · rw [skipC, List.dropWhile_cons, if_neg (by simp [hc])]
  | ins c hc h2 hne ih =>
    rcases ih with ⟨ha, hb⟩ | ⟨u, r, r2, ha, hb, hu, hi⟩
    · refine Or.inl ⟨ha, ?_⟩
      rw [skipC, List.dropWhile_cons, if_pos hc]
      exact hb
    · refine Or.inr ⟨u, r, r2, ha, ?_, hu, hi⟩
      rw [skipC, List.dropWhile_cons, if_pos hc]
      exact hb

theorem peekT_ins {ts ts2 : List PTok} (h : Ins ts ts2) : peekT ts = peekT ts2 := by
  rcases skipC_ins h with ⟨ha, hb⟩ | ⟨t, r, r2, ha, hb, -, -⟩
  · rw [peekT, peekT, ha, hb]
  · rw [peekT, peekT, ha, hb]

theorem skipC_ins_rel {ts ts2 : List PTok} (h : Ins ts ts2) :
    Ins (skipC ts) (skipC ts2) := by
  rcases skipC_ins h with ⟨ha, hb⟩ | ⟨t, r, r2, ha, hb, -, hi⟩
  · rw [ha, hb]
    exact .nil
  · rw [ha, hb]
    exact .keep t hi

theorem peekT_skipC (ts : List PTok) : peekT (skipC ts) = peekT ts := by
  rw [peekT, peekT, skipC, skipC, List.dropWhile_idempotent]

theorem skipC_skipC (ts : List PTok) : skipC (skipC ts) = skipC ts := by
  rw [skipC, skipC, List.dropWhile_idempotent]

theorem lk_ins {ts ts2 : List PTok} (h : Ins ts ts2) (n : Nat) :
    lk n (skipC ts) = lk n (skipC ts2) := by
  induction n generalizing ts ts2 with
  | zero =>
    rcases skipC_ins h with ⟨ha, hb⟩ | ⟨t, r, r2, ha, hb, -, -⟩
    · rw [ha, hb]
    · rw [ha, hb]
      rfl
  | succ n ih =>
    rcases skipC_ins h with ⟨ha, hb⟩ | ⟨t, r, r2, ha, hb, -, hi⟩
    · rw [ha, hb]
    · rw [ha, hb]
      exact ih hi

/-- Lock-step relation between results of the two runs: equal errors, or
equal values with insertion-related remainder states. -/
def RR {α : Type} : Except PErr (α × List PTok) → Except PErr (α × List PTok) → Prop
  | .error e, .error e2 => e = e2
  | .ok (a, ts), .ok (a2, ts2) => a = a2 ∧ Ins ts ts2
  | _, _ => False

theorem RR_cases {α : Type} {x x2 : Except PErr (α × List PTok)} (h : RR x x2) :
    (∃ e, x = .error e ∧ x2 = .error e) ∨
    (∃ a u u2, x = .ok (a, u) ∧ x2 = .ok (a, u2) ∧ Ins u u2) := by
  match x, x2, h with
  | .error e, .error e2, h =>
    exact Or.inl ⟨e2, by rw [show e = e2 from h], rfl⟩
  | .ok (a, u), .ok (a2, u2), h =>
    exact Or.inr ⟨a2, u, u2, by rw [show a = a2 from h.1], rfl, h.2⟩

theorem RR_error {α : Type} (e : PErr) :
    RR (α := α) (.error e) (.error e) := rfl

theorem RR_ok {α : Type} (a : α) {u u2 : List PTok} (h : Ins u u2) :
    RR (.ok (a, u)) (.ok (a, u2)) := ⟨rfl, h⟩

theorem locOf_ins {ts ts2 : List PTok} (h : Ins ts ts2) :
    locOf (skipC ts) = locOf (skipC ts2) := by
  rcases skipC_ins h with ⟨ha, hb⟩ | ⟨t, r, r2, ha, hb, -, -⟩
  · rw [ha, hb]
  · rw [ha, hb]
    rfl

theorem tail_skipC_ins {ts ts2 : List PTok} (h : Ins ts ts2) :
    Ins (skipC ts).tail (skipC ts2).tail := by
  rcases skipC_ins h with ⟨ha, hb⟩ | ⟨t, r, r2, ha, hb, -, hi⟩
  · rw [ha, hb]
    exact .nil
  · rw [ha, hb]
    exact hi

theorem matchT_ins (cls : String) (val : Option String) {ts ts2 : List PTok}
    (h : Ins ts ts2) : RR (matchT cls val ts) (matchT cls val ts2) := by
  rw [matchT, matchT]
  have hp := peekT_ins h
  rw [← hp]
  by_cases hcond : ((peekT ts).cls = cls ∧ (val = none ∨ val = some (peekT ts).value))
  · rw [if_pos hcond, if_pos hcond]
    exact RR_ok _ (tail_skipC_ins h)
  · rw [if_neg hcond, if_neg hcond, locOf_ins h]
    exact RR_error _

end CParse

namespace CParse

/-- Sequencing of a step returning a value and a token state with its
continuation; definitionally the `match` used throughout the parser. -/
def bindE {α β : Type} (x : Except PErr (α × List PTok))
    (k : α → List PTok → Except PErr (β × List PTok)) : Except PErr (β × List PTok) :=
  match x with
  | .error e => .error e
  | .ok (a, u) => k a u

/-- Sequencing of a step returning only a token state. -/
def bindS {β : Type} (x : Except PErr (List PTok))
    (k : List PTok → Except PErr (β × List PTok)) : Except PErr (β × List PTok) :=
  match x with
  | .error e => .error e
  | .ok u => k u

/-- Drop the token value of a `matchT` result, keeping the state. -/
def bindP (x : Except PErr (PTok × List PTok)) : Except PErr (List PTok) :=
  match x with
  | .error e => .error e
  | .ok (_, u) => .ok u

set_option smartUnfolding false in
theorem pProgram_eq (f : Nat) (ts0 : List PTok) : pProgram (f+1) ts0 =
    bindE (pProgLoop f (if ts0 = [] then ts0 else skipC ts0)) (fun cs ts2 =>
      .ok (.mk "Program" "" (if ts0 = [] then 0 else (peekT ts0).line) cs, ts2)) := by rfl

set_option smartUnfolding false in
theorem pProgLoop_eq (f : Nat) (ts : List PTok) : pProgLoop (f+1) ts =
    if ts = [] then .ok ([], ts)
    else bindE (pTopLevel f ts) (fun n ts2 =>
      bindE (pProgLoop f ts2) (fun ns ts3 => .ok (n :: ns, ts3))) := by rfl

set_option smartUnfolding false in
theorem pTopLevel_eq (f : Nat) (ts0 : List PTok) : pTopLevel (f+1) ts0 =
    if (peekT ts0).cls = "PREPROCESSOR DIRECTIVE" then
      bindE (matchT "PREPROCESSOR DIRECTIVE" none (skipC ts0)) (fun d ts2 =>
        .ok (.mk "PreprocessorDirective" d.value d.line [], ts2))
    else if (peekT ts0).cls = "KEYWORD" ∧ ((peekT ts0).value = "int" ∨
        (peekT ts0).value = "float" ∨ (peekT ts0).value = "char" ∨
        (peekT ts0).value = "void" ∨ (peekT ts0).value = "const") then
      if (lk 2 (skipC ts0)).value = "(" then pFuncProto f (skipC ts0)
      else pVarDecl f (skipC ts0)
    else .error (.unrecognizedTopLevel (locOf (skipC ts0))) := by rfl

set_option smartUnfolding false in
theorem pFuncProto_eq (f : Nat) (ts0 : List PTok) : pFuncProto (f+1) ts0 =
    bindE (matchT "KEYWORD" none (skipC ts0)) (fun typeTok ts =>
    bindE (matchT "IDENTIFIER" none ts) (fun nameTok ts =>
    bindE (matchT "SPECIAL CHARACTER" (some "(") ts) (fun _ ts =>
    bindE (matchT "SPECIAL CHARACTER" (some ")") ts) (fun _ ts =>
    if (peekT ts).value = "\x7b" then
      bindE (pBlock f (skipC ts)) (fun body ts =>
        .ok (.mk "FunctionDefinition" nameTok.value (peekT ts0).line
          [.mk "TypeSpecifier" typeTok.value typeTok.line [], body], ts))
    else if (peekT ts).value = ";" then
      bindE (matchT "SPECIAL CHARACTER" (some ";") (skipC ts)) (fun _ ts =>
        .ok (.mk "FunctionPrototype" nameTok.value (peekT ts0).line
          [.mk "TypeSpecifier" typeTok.value typeTok.line []], ts))
    else .error (.expectedFuncBodyOrSemi (locOf (skipC ts))))))) := by rfl

set_option smartUnfolding false in
theorem pVarDecl_eq (f : Nat) (ts0 : List PTok) : pVarDecl (f+1) ts0 =
    bindE (if (peekT (skipC ts0)).value = "const" then
        bindE (matchT "KEYWORD" (some "const") (skipC (skipC ts0))) (fun t ts2 =>
          .ok ([PNode.mk "Keyword" t.value t.line []], ts2))
      else .ok ([], skipC (skipC ts0))) (fun constCs ts =>
    bindE (matchT "KEYWORD" none ts) (fun typeTok ts =>
    bindE (pVarDeclLoop f ts) (fun decls ts =>
    bindE (matchT "SPECIAL CHARACTER" (some ";") ts) (fun _ ts =>
    .ok (.mk "VariableDeclarationStatement" "" (peekT ts0).line
      (constCs ++ PNode.mk "TypeSpecifier" typeTok.value typeTok.line [] :: decls),
      ts))))) := by rfl

set_option smartUnfolding false in
theorem pVarDeclLoop_eq (f : Nat) (ts : List PTok) : pVarDeclLoop (f+1) ts =
    bindS (if (peekT ts).value = "," then
        bindP (matchT "SPECIAL CHARACTER" (some ",") (skipC ts))
      else .ok (skipC ts)) (fun u =>
    bindE (matchT "IDENTIFIER" none u) (fun varTok v =>
    bindE (if (peekT v).value = "=" then
        bindE (matchT "OPERATOR" (some "=") (skipC v)) (fun _ ts2 =>
        bindE (pExpression f (skipC ts2)) (fun e ts3 =>
          .ok ([PNode.mk "Initializer" "=" (peekT ts2).line [e]], ts3)))
      else .ok ([], skipC v)) (fun initCs w =>
    if (peekT w).value = "," then
      bindE (pVarDeclLoop f (skipC w)) (fun ds ts2 =>
        .ok (PNode.mk "Declarator" varTok.value varTok.line initCs :: ds, ts2))
    else .ok ([PNode.mk "Declarator" varTok.value varTok.line initCs], skipC w)))) := by rfl

set_option smartUnfolding false in
theorem pStatement_eq (f : Nat) (ts0 : List PTok) : pStatement (f+1) ts0 =
    if (peekT ts0).value = "if" then pIf f (skipC ts0)
    else if (peekT ts0).value = "for" then pFor f (skipC ts0)
    else if (peekT ts0).value = "return" then pReturn f (skipC ts0)
    else if (peekT ts0).value = "\x7b" then pBlock f (skipC ts0)
    else if (peekT ts0).value = ";" then
      bindE (matchT "SPECIAL CHARACTER" (some ";") (skipC ts0)) (fun _ ts2 =>
        .ok (.mk "EmptyStatement" ";" (peekT (skipC ts0)).line [], ts2))
    else if (peekT ts0).value = "const" ∨ (peekT ts0).value = "int" ∨
        (peekT ts0).value = "float" ∨ (peekT ts0).value = "char" then
      pVarDecl f (skipC ts0)
    else pExprStmt f (skipC ts0) := by rfl

set_option smartUnfolding false in
theorem pBlock_eq (f : Nat) (ts0 : List PTok) : pBlock (f+1) ts0 =
    bindE (matchT "SPECIAL CHARACTER" (some "\x7b") (skipC ts0)) (fun _ ts =>
    bindE (pBlockLoop f ts) (fun cs ts =>
    bindE (matchT "SPECIAL CHARACTER" (some "\x7d") ts) (fun _ ts =>
    .ok (.mk "BlockStatement" "\x7b\x7d" (peekT ts0).line cs, ts)))) := by rfl

set_option smartUnfolding false in
theorem pBlockLoop_eq (f : Nat) (ts : List PTok) : pBlockLoop (f+1) ts =
    if (peekT ts).value = "\x7d" then .ok ([], skipC ts)
    else bindE (pStatement f (skipC ts)) (fun s ts2 =>
      bindE (pBlockLoop f ts2) (fun ss ts3 => .ok (s :: ss, ts3))) := by rfl

set_option smartUnfolding false in
theorem pIf_eq (f : Nat) (ts0 : List PTok) : pIf (f+1) ts0 =
    bindE (matchT "KEYWORD" (some "if") (skipC ts0)) (fun _ ts =>
    bindE (matchT "SPECIAL CHARACTER" (some "(") ts) (fun _ ts =>
    bindE (pExpression f ts) (fun cond ts =>
    bindE (matchT "SPECIAL CHARACTER" (some ")") ts) (fun _ ts =>
    bindE (pStatement f ts) (fun thenS ts =>
    if (peekT ts).value = "else" then
      bindE (matchT "KEYWORD" (some "else") (skipC ts)) (fun _ ts2 =>
      bindE (pStatement f ts2) (fun elseS ts3 =>
        .ok (.mk "IfStatement" "if" (peekT ts0).line [cond, thenS, elseS], ts3)))
    else .ok (.mk "IfStatement" "if" (peekT ts0).line [cond, thenS], skipC ts)))))) := by rfl

set_option smartUnfolding false in
theorem pReturn_eq (f : Nat) (ts0 : List PTok) : pReturn (f+1) ts0 =
    bindE (matchT "KEYWORD" (some "return") (skipC ts0)) (fun _ ts =>
    bindE (if ¬ (peekT ts).value = ";" then
        bindE (pExpression f (skipC ts)) (fun e ts2 => .ok ([e], ts2))
      else .ok ([], skipC ts)) (fun cs ts =>
    bindE (matchT "SPECIAL CHARACTER" (some ";") ts) (fun _ ts =>
    .ok (.mk "ReturnStatement" "return" (peekT ts0).line cs, ts)))) := by rfl

set_option smartUnfolding false in
theorem pExprStmt_eq (f : Nat) (ts0 : List PTok) : pExprStmt (f+1) ts0 =
    bindE (pExpression f (skipC ts0)) (fun e ts =>
    bindE (matchT "SPECIAL CHARACTER" (some ";") ts) (fun _ ts =>
    .ok (.mk "ExpressionStatement" "" (peekT ts0).line [e], ts))) := by rfl

set_option smartUnfolding false in
theorem pFor_eq (f : Nat) (ts0 : List PTok) : pFor (f+1) ts0 =
    bindE (matchT "KEYWORD" (some "for") (skipC ts0)) (fun _ ts =>
    bindE (matchT "SPECIAL CHARACTER" (some "(") ts) (fun _ ts =>
    bindE (if (peekT ts).value = ";" then
        bindE (matchT "SPECIAL CHARACTER" (some ";") (skipC ts)) (fun _ ts2 =>
          .ok (PNode.mk "Empty" "initializer" (peekT ts0).line [], ts2))
      else if (peekT ts).value = "int" ∨ (peekT ts).value = "char" ∨
          (peekT ts).value = "float" then
        pVarDecl f (skipC ts)
      else pExprStmt f (skipC ts)) (fun initN ts =>
    bindE (if (peekT ts).value = ";" then
        bindE (matchT "SPECIAL CHARACTER" (some ";") (skipC ts)) (fun _ ts2 =>
          .ok (PNode.mk "Empty" "condition" (peekT ts0).line [], ts2))
      else
        bindE (pExpression f (skipC ts)) (fun e ts2 =>
        bindE (matchT "SPECIAL CHARACTER" (some ";") ts2) (fun _ ts3 =>
          .ok (e, ts3)))) (fun condN ts =>
    bindE (if (peekT ts).value = ")" then
        .ok (PNode.mk "Empty" "increment" (peekT ts0).line [], skipC ts)
      else pExpression f (skipC ts)) (fun incrN ts =>
    bindE (matchT "SPECIAL CHARACTER" (some ")") ts) (fun _ ts =>
    bindE (pStatement f ts) (fun body ts =>
    .ok (.mk "ForStatement" "for" (peekT ts0).line
      [initN, condN, incrN, body], ts)))))))) := by rfl

set_option smartUnfolding false in
theorem pExpression_eq (f : Nat) (ts : List PTok) : pExpression (f+1) ts =
    pAssignment f ts := by rfl

set_option smartUnfolding false in
theorem pAssignment_eq (f : Nat) (ts0 : List PTok) : pAssignment (f+1) ts0 =
    bindE (pEquality f (skipC ts0)) (fun l ts =>
    if (peekT ts).value = "=" then
      bindE (matchT "OPERATOR" (some "=") (skipC ts)) (fun op ts2 =>
      bindE (pAssignment f ts2) (fun r ts3 =>
        .ok (.mk "AssignmentExpression" op.value (peekT ts0).line [l, r], ts3)))
    else .ok (l, skipC ts)) := by rfl

set_option smartUnfolding false in
theorem pEquality_eq (f : Nat) (ts : List PTok) : pEquality (f+1) ts =
    bindE (pRelational f ts) (fun l ts2 => pEqLoop f l ts2) := by rfl

set_option smartUnfolding false in
theorem pEqLoop_eq (f : Nat) (l : PNode) (ts : List PTok) : pEqLoop (f+1) l ts =
    if (peekT ts).value = "==" ∨ (peekT ts).value = "!=" then
      bindE (matchT "OPERATOR" none (skipC ts)) (fun op ts2 =>
      bindE (pRelational f ts2) (fun r ts3 =>
        pEqLoop f (.mk "BinaryExpression" op.value op.line [l, r]) ts3))
    else .ok (l, skipC ts) := by rfl

set_option smartUnfolding false in
theorem pRelational_eq (f : Nat) (ts : List PTok) : pRelational (f+1) ts =
    bindE (pAdditive f ts) (fun l ts2 => pRelLoop f l ts2) := by rfl

set_option smartUnfolding false in
theorem pRelLoop_eq (f : Nat) (l : PNode) (ts : List PTok) : pRelLoop (f+1) l ts =
    if (peekT ts).value = "<" ∨ (peekT ts).value = ">" ∨
        (peekT ts).value = "<=" ∨ (peekT ts).value = ">=" then
      bindE (matchT "OPERATOR" none (skipC ts)) (fun op ts2 =>
      bindE (pAdditive f ts2) (fun r ts3 =>
        pRelLoop f (.mk "BinaryExpression" op.value op.line [l, r]) ts3))
    else .ok (l, skipC ts) := by rfl

set_option smartUnfolding false in
theorem pAdditive_eq (f : Nat) (ts : List PTok) : pAdditive (f+1) ts =
    bindE (pMultiplicative f ts) (fun l ts2 => pAddLoop f l ts2) := by rfl

set_option smartUnfolding false in
theorem pAddLoop_eq (f : Nat) (l : PNode) (ts : List PTok) : pAddLoop (f+1) l ts =
    if (peekT ts).value = "+" ∨ (peekT ts).value = "-" then
      bindE (matchT "OPERATOR" none (skipC ts)) (fun op ts2 =>
      bindE (pMultiplicative f ts2) (fun r ts3 =>
        pAddLoop f (.mk "BinaryExpression" op.value op.line [l, r]) ts3))
    else .ok (l, skipC ts) := by rfl

set_option smartUnfolding false in
theorem pMultiplicative_eq (f : Nat) (ts : List PTok) : pMultiplicative (f+1) ts =
    bindE (pPrimary f ts) (fun l ts2 => pMulLoop f l ts2) := by rfl

set_option smartUnfolding false in
theorem pMulLoop_eq (f : Nat) (l : PNode) (ts : List PTok) : pMulLoop (f+1) l ts =
    if (peekT ts).value = "*" ∨ (peekT ts).value = "/" then
      bindE (matchT "OPERATOR" none (skipC ts)) (fun op ts2 =>
      bindE (pPrimary f ts2) (fun r ts3 =>
        pMulLoop f (.mk "BinaryExpression" op.value op.line [l, r]) ts3))
    else .ok (l, skipC ts) := by rfl

set_option smartUnfolding false in
theorem pPrimary_eq (f : Nat) (ts0 : List PTok) : pPrimary (f+1) ts0 =
    if (peekT (skipC ts0)).cls = "NUMERIC CONSTANT" then
      bindE (matchT "NUMERIC CONSTANT" none (skipC ts0)) (fun v ts2 =>
        .ok (.mk "Constant" v.value (peekT ts0).line [], ts2))
    else if (peekT (skipC ts0)).cls = "IDENTIFIER" then
      bindE (matchT "IDENTIFIER" none (skipC ts0)) (fun v ts2 =>
        .ok (.mk "Identifier" v.value (peekT ts0).line [], ts2))
    else if (peekT (skipC ts0)).value = "(" then
      bindE (matchT "SPECIAL CHARACTER" (some "(") (skipC ts0)) (fun _ ts2 =>
      bindE (pExpression f ts2) (fun e ts3 =>
      bindE (matchT "SPECIAL CHARACTER" (some ")") ts3) (fun _ ts4 =>
        .ok (e, ts4))))
    else .error (.expectedPrimary (locOf (skipC ts0))) := by rfl

theorem RR_refl {α : Type} (x : Except PErr (α × List PTok)) : RR x x := by
  match x with
  | .error e => exact rfl
  | .ok (a, u) => exact ⟨rfl, Ins.refl_list u⟩

theorem RR_bindE {α β : Type} {x x2 : Except PErr (α × List PTok)}
    {k k2 : α → List PTok → Except PErr (β × List PTok)}
    (hx : RR x x2) (hk : ∀ a u u2, Ins u u2 → RR (k a u) (k2 a u2)) :
    RR (bindE x k) (bindE x2 k2) := by
  rcases RR_cases hx with ⟨e, h1, h2⟩ | ⟨a, u, u2, h1, h2, hu⟩
  · rw [h1, h2]
    exact RR_error e
  · rw [h1, h2]
    exact hk a u u2 hu

/-- Lock-step relation for state-only intermediate results. -/
def RRs : Except PErr (List PTok) → Except PErr (List PTok) → Prop
  | .error e, .error e2 => e = e2
  | .ok ts, .ok ts2 => Ins ts ts2
  | _, _ => False

theorem RRs_ok {u u2 : List PTok} (h : Ins u u2) : RRs (.ok u) (.ok u2) := h

theorem RRs_cases {x x2 : Except PErr (List PTok)} (h : RRs x x2) :
    (∃ e, x = .error e ∧ x2 = .error e) ∨
    (∃ u u2, x = .ok u ∧ x2 = .ok u2 ∧ Ins u u2) := by
  match x, x2, h with
  | .error e, .error e2, h =>
    exact Or.inl ⟨e2, by rw [show e = e2 from h], rfl⟩
  | .ok u, .ok u2, h => exact Or.inr ⟨u, u2, rfl, rfl, h⟩

theorem RRs_bindP {x x2 : Except PErr (PTok × List PTok)} (hx : RR x x2) :
    RRs (bindP x) (bindP x2) := by
  rcases RR_cases hx with ⟨e, h1, h2⟩ | ⟨a, u, u2, h1, h2, hu⟩
  · rw [h1, h2]
    exact rfl
  · rw [h1, h2]
    exact hu

theorem RR_bindS {β : Type} {x x2 : Except PErr (List PTok)}
    {k k2 : List PTok → Except PErr (β × List PTok)}
    (hx : RRs x x2) (hk : ∀ u u2, Ins u u2 → RR (k u) (k2 u2)) :
    RR (bindS x k) (bindS x2 k2) := by
  rcases RRs_cases hx with ⟨e, h1, h2⟩ | ⟨u, u2, h1, h2, hu⟩
  · rw [h1, h2]
    exact RR_error e
  · rw [h1, h2]
    exact hk u u2 hu

/-- The parser skips inserted non-trailing comment tokens transparently:
every parsing function sends `Ins`-related input states to lock-step
related results, by one induction on the fuel. -/
theorem lockstep : ∀ fuel : Nat,
    (∀ a b, Ins a b → RR (pProgram fuel a) (pProgram fuel b)) ∧
    (∀ a b, Ins a b → RR (pProgLoop fuel a) (pProgLoop fuel b)) ∧
    (∀ a b, Ins a b → RR (pTopLevel fuel a) (pTopLevel fuel b)) ∧
    (∀ a b, Ins a b → RR (pFuncProto fuel a) (pFuncProto fuel b)) ∧
    (∀ a b, Ins a b → RR (pVarDecl fuel a) (pVarDecl fuel b)) ∧
    (∀ a b, Ins a b → RR (pVarDeclLoop fuel a) (pVarDeclLoop fuel b)) ∧
    (∀ a b, Ins a b → RR (pStatement fuel a) (pStatement fuel b)) ∧
    (∀ a b, Ins a b → RR (pBlock fuel a) (pBlock fuel b)) ∧
    (∀ a b, Ins a b → RR (pBlockLoop fuel a) (pBlockLoop fuel b)) ∧
    (∀ a b, Ins a b → RR (pIf fuel a) (pIf fuel b)) ∧
    (∀ a b, Ins a b → RR (pReturn fuel a) (pReturn fuel b)) ∧
    (∀ a b, Ins a b → RR (pExprStmt fuel a) (pExprStmt fuel b)) ∧
    (∀ a b, Ins a b → RR (pFor fuel a) (pFor fuel b)) ∧
    (∀ a b, Ins a b → RR (pExpression fuel a) (pExpression fuel b)) ∧
    (∀ a b, Ins a b → RR (pAssignment fuel a) (pAssignment fuel b)) ∧
    (∀ a b, Ins a b → RR (pEquality fuel a) (pEquality fuel b)) ∧
    (∀ l a b, Ins a b → RR (pEqLoop fuel l a) (pEqLoop fuel l b)) ∧
    (∀ a b, Ins a b → RR (pRelational fuel a) (pRelational fuel b)) ∧
    (∀ l a b, Ins a b → RR (pRelLoop fuel l a) (pRelLoop fuel l b)) ∧
    (∀ a b, Ins a b → RR (pAdditive fuel a) (pAdditive fuel b)) ∧
    (∀ l a b, Ins a b → RR (pAddLoop fuel l a) (pAddLoop fuel l b)) ∧
    (∀ a b, Ins a b → RR (pMultiplicative fuel a) (pMultiplicative fuel b)) ∧
    (∀ l a b, Ins a b → RR (pMulLoop fuel l a) (pMulLoop fuel l b)) ∧
    (∀ a b, Ins a b → RR (pPrimary fuel a) (pPrimary fuel b)) := by
  intro fuel
  induction fuel with
  | zero =>
    refine ⟨?_, ?_, ?_, ?_, ?_, ?_, ?_, ?_, ?_, ?_, ?_, ?_, ?_, ?_, ?_, ?_, ?_,
      ?_, ?_, ?_, ?_, ?_, ?_, ?_⟩ <;>
    · intros
      simp only [pProgram, pProgLoop, pTopLevel, pFuncProto, pVarDecl, pVarDeclLoop,
        pStatement, pBlock, pBlockLoop, pIf, pReturn, pExprStmt, pFor, pExpression,
        pAssignment, pEquality, pEqLoop, pRelational, pRelLoop, pAdditive, pAddLoop,
        pMultiplicative, pMulLoop, pPrimary]
      exact RR_error _
  | succ f ih =>
    obtain ⟨ihProg, ihProgL, ihTop, ihProto, ihVar, ihVarL, ihStmt, ihBlock,
      ihBlockL, ihIf, ihRet, ihExprS, ihFor, ihExpr, ihAssign, ihEq, ihEqL,
      ihRel, ihRelL, ihAdd, ihAddL, ihMul, ihMulL, ihPrim⟩ := ih
    have gProgL : ∀ a b, Ins a b → RR (pProgLoop (f+1) a) (pProgLoop (f+1) b) := by
      intro ts ts2 hins
      rw [pProgLoop_eq, pProgLoop_eq]
      by_cases hnil : ts = []
      · have hnil2 := (ins_nil_iff hins).mp hnil
        subst hnil
        subst hnil2
        exact RR_refl _
      · have hnil2 : ¬ ts2 = [] := fun h2 => hnil ((ins_nil_iff hins).mpr h2)
        rw [if_neg hnil, if_neg hnil2]
        refine RR_bindE (ihTop _ _ hins) ?_
        intro n u u2 hu
        refine RR_bindE (ihProgL _ _ hu) ?_
        intro ns v v2 hv
        exact RR_ok _ hv
    have gProg : ∀ a b, Ins a b → RR (pProgram (f+1) a) (pProgram (f+1) b) := by
      intro ts0 ts02 hins
      rw [pProgram_eq, pProgram_eq]
      by_cases hnil : ts0 = []
      · have hnil2 := (ins_nil_iff hins).mp hnil
        subst hnil
        subst hnil2
        exact RR_refl _
      · have hnil2 : ¬ ts02 = [] := fun h2 => hnil ((ins_nil_iff hins).mpr h2)
        rw [if_neg hnil, if_neg hnil, if_neg hnil2, if_neg hnil2, peekT_ins hins]
        refine RR_bindE (ihProgL _ _ (skipC_ins_rel hins)) ?_
        intro cs u u2 hu
        exact RR_ok _ hu
    have gTop : ∀ a b, Ins a b → RR (pTopLevel (f+1) a) (pTopLevel (f+1) b) := by
      intro ts0 ts02 hins
      rw [pTopLevel_eq, pTopLevel_eq, peekT_ins hins, lk_ins hins 2, locOf_ins hins]
      by_cases h1 : (peekT ts02).cls = "PREPROCESSOR DIRECTIVE"
      · rw [if_pos h1, if_pos h1]
        refine RR_bindE (matchT_ins "PREPROCESSOR DIRECTIVE" none (skipC_ins_rel hins)) ?_
        intro d u u2 hu
        exact RR_ok _ hu
      · rw [if_neg h1, if_neg h1]
        by_cases h2 : (peekT ts02).cls = "KEYWORD" ∧ ((peekT ts02).value = "int" ∨
            (peekT ts02).value = "float" ∨ (peekT ts02).value = "char" ∨
            (peekT ts02).value = "void" ∨ (peekT ts02).value = "const")
        · rw [if_pos h2, if_pos h2]
          by_cases h3 : (lk 2 (skipC ts02)).value = "("
          · rw [if_pos h3, if_pos h3]
            exact ihProto _ _ (skipC_ins_rel hins)
          · rw [if_neg h3, if_neg h3]
            exact ihVar _ _ (skipC_ins_rel hins)
        · rw [if_neg h2, if_neg h2]
          exact RR_error _
    have gProto : ∀ a b, Ins a b → RR (pFuncProto (f+1) a) (pFuncProto (f+1) b) := by
      intro ts0 ts02 hins
      rw [pFuncProto_eq, pFuncProto_eq, peekT_ins hins]
      refine RR_bindE (matchT_ins "KEYWORD" none (skipC_ins_rel hins)) ?_
      intro typeTok u u2 hu
      refine RR_bindE (matchT_ins "IDENTIFIER" none hu) ?_
      intro nameTok v v2 hv
      refine RR_bindE (matchT_ins "SPECIAL CHARACTER" (some "(") hv) ?_
      intro t3 w w2 hw
      refine RR_bindE (matchT_ins "SPECIAL CHARACTER" (some ")") hw) ?_
      intro t4 x x2 hx
      rw [peekT_ins hx, locOf_ins hx]
      by_cases h1 : (peekT x2).value = "\x7b"
      · rw [if_pos h1, if_pos h1]
        refine RR_bindE (ihBlock _ _ (skipC_ins_rel hx)) ?_
        intro body y y2 hy
        exact RR_ok _ hy
      · rw [if_neg h1, if_neg h1]
        by_cases h2 : (peekT x2).value = ";"
        · rw [if_pos h2, if_pos h2]
          refine RR_bindE (matchT_ins "SPECIAL CHARACTER" (some ";") (skipC_ins_rel hx)) ?_
          intro t5 y y2 hy
          exact RR_ok _ hy
        · rw [if_neg h2, if_neg h2]
          exact RR_error _
    have gVar : ∀ a b, Ins a b → RR (pVarDecl (f+1) a) (pVarDecl (f+1) b) := by
      intro ts0 ts02 hins
      rw [pVarDecl_eq, pVarDecl_eq, peekT_skipC, peekT_skipC, peekT_ins hins]
      refine RR_bindE ?_ ?_
      · by_cases h1 : (peekT ts02).value = "const"
        · rw [if_pos h1, if_pos h1]
          refine RR_bindE (matchT_ins "KEYWORD" (some "const")
            (skipC_ins_rel (skipC_ins_rel hins))) ?_
          intro t u u2 hu
          exact RR_ok _ hu
        · rw [if_neg h1, if_neg h1]
          exact RR_ok _ (skipC_ins_rel (skipC_ins_rel hins))
      · intro constCs u u2 hu
        refine RR_bindE (matchT_ins "KEYWORD" none hu) ?_
        intro typeTok v v2 hv
        refine RR_bindE (ihVarL _ _ hv) ?_
        intro decls w w2 hw
        refine RR_bindE (matchT_ins "SPECIAL CHARACTER" (some ";") hw) ?_
        intro t5 x x2 hx
        exact RR_ok _ hx
    have gVarL : ∀ a b, Ins a b → RR (pVarDeclLoop (f+1) a) (pVarDeclLoop (f+1) b) := by
      intro ts ts2 hins
      rw [pVarDeclLoop_eq, pVarDeclLoop_eq, peekT_ins hins]
      refine RR_bindS ?_ ?_
      · by_cases h1 : (peekT ts2).value = ","
        · rw [if_pos h1, if_pos h1]
          exact RRs_bindP (matchT_ins "SPECIAL CHARACTER" (some ",") (skipC_ins_rel hins))
        · rw [if_neg h1, if_neg h1]
          exact RRs_ok (skipC_ins_rel hins)
      · intro u u2 hu
        refine RR_bindE (matchT_ins "IDENTIFIER" none hu) ?_
        intro varTok v v2 hv
        rw [peekT_ins hv]
        refine RR_bindE ?_ ?_
        · by_cases h2 : (peekT v2).value = "="
          · rw [if_pos h2, if_pos h2]
            refine RR_bindE (matchT_ins "OPERATOR" (some "=") (skipC_ins_rel hv)) ?_
            intro op w w2 hw
            rw [peekT_ins hw]
            refine RR_bindE (ihExpr _ _ (skipC_ins_rel hw)) ?_
            intro e x x2 hx
            exact RR_ok _ hx
          · rw [if_neg h2, if_neg h2]
            exact RR_ok _ (skipC_ins_rel hv)
        · intro initCs x x2 hx
          rw [peekT_ins hx]
          by_cases h3 : (peekT x2).value = ","
          · rw [if_pos h3, if_pos h3]
            refine RR_bindE (ihVarL _ _ (skipC_ins_rel hx)) ?_
            intro ds y y2 hy
            exact RR_ok _ hy
          · rw [if_neg h3, if_neg h3]
            exact RR_ok _ (skipC_ins_rel hx)
    have gStmt : ∀ a b, Ins a b → RR (pStatement (f+1) a) (pStatement (f+1) b) := by
      intro ts0 ts02 hins
      rw [pStatement_eq, pStatement_eq, peekT_skipC, peekT_skipC, peekT_ins hins]
      by_cases h1 : (peekT ts02).value = "if"
      · rw [if_pos h1, if_pos h1]
        exact ihIf _ _ (skipC_ins_rel hins)
      · rw [if_neg h1, if_neg h1]
        by_cases h2 : (peekT ts02).value = "for"
        · rw [if_pos h2, if_pos h2]
          exact ihFor _ _ (skipC_ins_rel hins)
        · rw [if_neg h2, if_neg h2]
          by_cases h3 : (peekT ts02).value = "return"
          · rw [if_pos h3, if_pos h3]
            exact ihRet _ _ (skipC_ins_rel hins)
          · rw [if_neg h3, if_neg h3]
            by_cases h4 : (peekT ts02).value = "\x7b"
            · rw [if_pos h4, if_pos h4]
              exact ihBlock _ _ (skipC_ins_rel hins)
            · rw [if_neg h4, if_neg h4]
              by_cases h5 : (peekT ts02).value = ";"
              · rw [if_pos h5, if_pos h5]
                refine RR_bindE (matchT_ins "SPECIAL CHARACTER" (some ";")
                  (skipC_ins_rel hins)) ?_
                intro t u u2 hu
                exact RR_ok _ hu
              · rw [if_neg h5, if_neg h5]
                by_cases h6 : (peekT ts02).value = "const" ∨ (peekT ts02).value = "int" ∨
                    (peekT ts02).value = "float" ∨ (peekT ts02).value = "char"
                · rw [if_pos h6, if_pos h6]
                  exact ihVar _ _ (skipC_ins_rel hins)
                · rw [if_neg h6, if_neg h6]
                  exact ihExprS _ _ (skipC_ins_rel hins)
    have gBlock : ∀ a b, Ins a b → RR (pBlock (f+1) a) (pBlock (f+1) b) := by
      intro ts0 ts02 hins
      rw [pBlock_eq, pBlock_eq, peekT_ins hins]
      refine RR_bindE (matchT_ins "SPECIAL CHARACTER" (some "\x7b")
        (skipC_ins_rel hins)) ?_
      intro t1 u u2 hu
      refine RR_bindE (ihBlockL _ _ hu) ?_
      intro cs v v2 hv
      refine RR_bindE (matchT_ins "SPECIAL CHARACTER" (some "\x7d") hv) ?_
      intro t2 w w2 hw
      exact RR_ok _ hw
    have gBlockL : ∀ a b, Ins a b → RR (pBlockLoop (f+1) a) (pBlockLoop (f+1) b) := by
      intro ts ts2 hins
      rw [pBlockLoop_eq, pBlockLoop_eq, peekT_ins hins]
      by_cases h1 : (peekT ts2).value = "\x7d"
      · rw [if_pos h1, if_pos h1]
        exact RR_ok _ (skipC_ins_rel hins)
      · rw [if_neg h1, if_neg h1]
        refine RR_bindE (ihStmt _ _ (skipC_ins_rel hins)) ?_
        intro s u u2 hu
        refine RR_bindE (ihBlockL _ _ hu) ?_
        intro ss v v2 hv
        exact RR_ok _ hv
    have gIf : ∀ a b, Ins a b → RR (pIf (f+1) a) (pIf (f+1) b) := by
      intro ts0 ts02 hins
      rw [pIf_eq, pIf_eq, peekT_ins hins]
      refine RR_bindE (matchT_ins "KEYWORD" (some "if") (skipC_ins_rel hins)) ?_
      intro t1 u u2 hu
      refine RR_bindE (matchT_ins "SPECIAL CHARACTER" (some "(") hu) ?_
      intro t2 v v2 hv
      refine RR_bindE (ihExpr _ _ hv) ?_
      intro cond w w2 hw
      refine RR_bindE (matchT_ins "SPECIAL CHARACTER" (some ")") hw) ?_
      intro t3 x x2 hx
      refine RR_bindE (ihStmt _ _ hx) ?_
      intro thenS y y2 hy
      rw [peekT_ins hy]
      by_cases h1 : (peekT y2).value = "else"
      · rw [if_pos h1, if_pos h1]
        refine RR_bindE (matchT_ins "KEYWORD" (some "else") (skipC_ins_rel hy)) ?_
        intro t4 z z2 hz
        refine RR_bindE (ihStmt _ _ hz) ?_
        intro elseS q q2 hq
        exact RR_ok _ hq
      · rw [if_neg h1, if_neg h1]
        exact RR_ok _ (skipC_ins_rel hy)
    have gRet : ∀ a b, Ins a b → RR (pReturn (f+1) a) (pReturn (f+1) b) := by
      intro ts0 ts02 hins
      rw [pReturn_eq, pReturn_eq, peekT_ins hins]
      refine RR_bindE (matchT_ins "KEYWORD" (some "return") (skipC_ins_rel hins)) ?_
      intro t1 u u2 hu
      rw [peekT_ins hu]
      refine RR_bindE ?_ ?_
      · by_cases h1 : ¬ (peekT u2).value = ";"
        · rw [if_pos h1, if_pos h1]
          refine RR_bindE (ihExpr _ _ (skipC_ins_rel hu)) ?_
          intro e v v2 hv
          exact RR_ok _ hv
        · rw [if_neg h1, if_neg h1]
          exact RR_ok _ (skipC_ins_rel hu)
      · intro cs v v2 hv
        refine RR_bindE (matchT_ins "SPECIAL CHARACTER" (some ";") hv) ?_
        intro t2 w w2 hw
        exact RR_ok _ hw
    have gExprS : ∀ a b, Ins a b → RR (pExprStmt (f+1) a) (pExprStmt (f+1) b) := by
      intro ts0 ts02 hins
      rw [pExprStmt_eq, pExprStmt_eq, peekT_ins hins]
      refine RR_bindE (ihExpr _ _ (skipC_ins_rel hins)) ?_
      intro e u u2 hu
      refine RR_bindE (matchT_ins "SPECIAL CHARACTER" (some ";") hu) ?_
      intro t1 v v2 hv
      exact RR_ok _ hv
    have gFor : ∀ a b, Ins a b → RR (pFor (f+1) a) (pFor (f+1) b) := by
      intro ts0 ts02 hins
      rw [pFor_eq, pFor_eq, peekT_ins hins]
      refine RR_bindE (matchT_ins "KEYWORD" (some "for") (skipC_ins_rel hins)) ?_
      intro t1 u u2 hu
      refine RR_bindE (matchT_ins "SPECIAL CHARACTER" (some "(") hu) ?_
      intro t2 v v2 hv
      rw [peekT_ins hv]
      refine RR_bindE ?_ ?_
      · by_cases h1 : (peekT v2).value = ";"
        · rw [if_pos h1, if_pos h1]
          refine RR_bindE (matchT_ins "SPECIAL CHARACTER" (some ";")
            (skipC_ins_rel hv)) ?_
          intro t3 w w2 hw
          exact RR_ok _ hw
        · rw [if_neg h1, if_neg h1]
          by_cases h2 : (peekT v2).value = "int" ∨ (peekT v2).value = "char" ∨
              (peekT v2).value = "float"
          · rw [if_pos h2, if_pos h2]
            exact ihVar _ _ (skipC_ins_rel hv)
          · rw [if_neg h2, if_neg h2]
            exact ihExprS _ _ (skipC_ins_rel hv)
      · intro initN w w2 hw
        rw [peekT_ins hw]
        refine RR_bindE ?_ ?_
        · by_cases h3 : (peekT w2).value = ";"
          · rw [if_pos h3, if_pos h3]
            refine RR_bindE (matchT_ins "SPECIAL CHARACTER" (some ";")
              (skipC_ins_rel hw)) ?_
            intro t4 x x2 hx
            exact RR_ok _ hx
          · rw [if_neg h3, if_neg h3]
            refine RR_bindE (ihExpr _ _ (skipC_ins_rel hw)) ?_
            intro e x x2 hx
            refine RR_bindE (matchT_ins "SPECIAL CHARACTER" (some ";") hx) ?_
            intro t5 y y2 hy
            exact RR_ok _ hy
        · intro condN x x2 hx
          rw [peekT_ins hx]
          refine RR_bindE ?_ ?_
          · by_cases h4 : (peekT x2).value = ")"
            · rw [if_pos h4, if_pos h4]
              exact RR_ok _ (skipC_ins_rel hx)
            · rw [if_neg h4, if_neg h4]
              exact ihExpr _ _ (skipC_ins_rel hx)
          · intro incrN y y2 hy
            refine RR_bindE (matchT_ins "SPECIAL CHARACTER" (some ")") hy) ?_
            intro t6 z z2 hz
            refine RR_bindE (ihStmt _ _ hz) ?_
            intro body q q2 hq
            exact RR_ok _ hq
    have gExpr : ∀ a b, Ins a b → RR (pExpression (f+1) a) (pExpression (f+1) b) := by
      intro ts ts2 hins
      rw [pExpression_eq, pExpression_eq]
      exact ihAssign _ _ hins
    have gAssign : ∀ a b, Ins a b → RR (pAssignment (f+1) a) (pAssignment (f+1) b) := by
      intro ts0 ts02 hins
      rw [pAssignment_eq, pAssignment_eq, peekT_ins hins]
      refine RR_bindE (ihEq _ _ (skipC_ins_rel hins)) ?_
      intro l u u2 hu
      rw [peekT_ins hu]
      by_cases h1 : (peekT u2).value = "="
      · rw [if_pos h1, if_pos h1]
        refine RR_bindE (matchT_ins "OPERATOR" (some "=") (skipC_ins_rel hu)) ?_
        intro op v v2 hv
        refine RR_bindE (ihAssign _ _ hv) ?_
        intro r w w2 hw
        exact RR_ok _ hw
      · rw [if_neg h1, if_neg h1]
        exact RR_ok _ (skipC_ins_rel hu)
    have gEq : ∀ a b, Ins a b → RR (pEquality (f+1) a) (pEquality (f+1) b) := by
      intro ts ts2 hins
      rw [pEquality_eq, pEquality_eq]
      refine RR_bindE (ihRel _ _ hins) ?_
      intro l u u2 hu
      exact ihEqL _ _ _ hu
    have gEqL : ∀ l a b, Ins a b → RR (pEqLoop (f+1) l a) (pEqLoop (f+1) l b) := by
      intro l ts ts2 hins
      rw [pEqLoop_eq, pEqLoop_eq, peekT_ins hins]
      by_cases h1 : (peekT ts2).value = "==" ∨ (peekT ts2).value = "!="
      · rw [if_pos h1, if_pos h1]
        refine RR_bindE (matchT_ins "OPERATOR" none (skipC_ins_rel hins)) ?_
        intro op u u2 hu
        refine RR_bindE (ihRel _ _ hu) ?_
        intro r v v2 hv
        exact ihEqL _ _ _ hv
      · rw [if_neg h1, if_neg h1]
        exact RR_ok _ (skipC_ins_rel hins)
    have gRel : ∀ a b, Ins a b → RR (pRelational (f+1) a) (pRelational (f+1) b) := by
      intro ts ts2 hins
      rw [pRelational_eq, pRelational_eq]
      refine RR_bindE (ihAdd _ _ hins) ?_
      intro l u u2 hu
      exact ihRelL _ _ _ hu
    have gRelL : ∀ l a b, Ins a b → RR (pRelLoop (f+1) l a) (pRelLoop (f+1) l b) := by
      intro l ts ts2 hins
      rw [pRelLoop_eq, pRelLoop_eq, peekT_ins hins]
      by_cases h1 : (peekT ts2).value = "<" ∨ (peekT ts2).value = ">" ∨
          (peekT ts2).value = "<=" ∨ (peekT ts2).value = ">="
      · rw [if_pos h1, if_pos h1]
        refine RR_bindE (matchT_ins "OPERATOR" none (skipC_ins_rel hins)) ?_
        intro op u u2 hu
        refine RR_bindE (ihAdd _ _ hu) ?_
        intro r v v2 hv
        exact ihRelL _ _ _ hv
      · rw [if_neg h1, if_neg h1]
        exact RR_ok _ (skipC_ins_rel hins)
    have gAdd : ∀ a b, Ins a b → RR (pAdditive (f+1) a) (pAdditive (f+1) b) := by
      intro ts ts2 hins
      rw [pAdditive_eq, pAdditive_eq]
      refine RR_bindE (ihMul _ _ hins) ?_
      intro l u u2 hu
      exact ihAddL _ _ _ hu
    have gAddL : ∀ l a b, Ins a b → RR (pAddLoop (f+1) l a) (pAddLoop (f+1) l b) := by
      intro l ts ts2 hins
      rw [pAddLoop_eq, pAddLoop_eq, peekT_ins hins]
      by_cases h1 : (peekT ts2).value = "+" ∨ (peekT ts2).value = "-"
      · rw [if_pos h1, if_pos h1]
        refine RR_bindE (matchT_ins "OPERATOR" none (skipC_ins_rel hins)) ?_
        intro op u u2 hu
        refine RR_bindE (ihMul _ _ hu) ?_
        intro r v v2 hv
        exact ihAddL _ _ _ hv
      · rw [if_neg h1, if_neg h1]
        exact RR_ok _ (skipC_ins_rel hins)
    have gMul : ∀ a b, Ins a b → RR (pMultiplicative (f+1) a) (pMultiplicative (f+1) b) := by
      intro ts ts2 hins
      rw [pMultiplicative_eq, pMultiplicative_eq]
      refine RR_bindE (ihPrim _ _ hins) ?_
      intro l u u2 hu
      exact ihMulL _ _ _ hu
    have gMulL : ∀ l a b, Ins a b → RR (pMulLoop (f+1) l a) (pMulLoop (f+1) l b) := by
      intro l ts ts2 hins
      rw [pMulLoop_eq, pMulLoop_eq, peekT_ins hins]
      by_cases h1 : (peekT ts2).value = "*" ∨ (peekT ts2).value = "/"
      · rw [if_pos h1, if_pos h1]
        refine RR_bindE (matchT_ins "OPERATOR" none (skipC_ins_rel hins)) ?_
        intro op u u2 hu
        refine RR_bindE (ihPrim _ _ hu) ?_
        intro r v v2 hv
        exact ihMulL _ _ _ hv
      · rw [if_neg h1, if_neg h1]
        exact RR_ok _ (skipC_ins_rel hins)
    have gPrim : ∀ a b, Ins a b → RR (pPrimary (f+1) a) (pPrimary (f+1) b) := by
      intro ts0 ts02 hins
      rw [pPrimary_eq, pPrimary_eq, peekT_skipC, peekT_skipC, peekT_ins hins,
        locOf_ins hins]
      by_cases h1 : (peekT ts02).cls = "NUMERIC CONSTANT"
      · rw [if_pos h1, if_pos h1]
        refine RR_bindE (matchT_ins "NUMERIC CONSTANT" none (skipC_ins_rel hins)) ?_
        intro v u u2 hu
        exact RR_ok _ hu
      · rw [if_neg h1, if_neg h1]
        by_cases h2 : (peekT ts02).cls = "IDENTIFIER"
        · rw [if_pos h2, if_pos h2]
          refine RR_bindE (matchT_ins "IDENTIFIER" none (skipC_ins_rel hins)) ?_
          intro v u u2 hu
          exact RR_ok _ hu
        · rw [if_neg h2, if_neg h2]
          by_cases h3 : (peekT ts02).value = "("
          · rw [if_pos h3, if_pos h3]
            refine RR_bindE (matchT_ins "SPECIAL CHARACTER" (some "(")
              (skipC_ins_rel hins)) ?_
            intro t1 u u2 hu
            refine RR_bindE (ihExpr _ _ hu) ?_
            intro e v v2 hv
            refine RR_bindE (matchT_ins "SPECIAL CHARACTER" (some ")") hv) ?_
            intro t2 w w2 hw
            exact RR_ok _ hw
          · rw [if_neg h3, if_neg h3]
            exact RR_error _
    exact ⟨gProg, gProgL, gTop, gProto, gVar, gVarL, gStmt, gBlock, gBlockL, gIf,
      gRet, gExprS, gFor, gExpr, gAssign, gEq, gEqL, gRel, gRelL, gAdd, gAddL,
      gMul, gMulL, gPrim⟩

theorem bindE_ok {α β : Type} {x : Except PErr (α × List PTok)}
    {k : α → List PTok → Except PErr (β × List PTok)} {b : β} {u : List PTok}
    (h : bindE x k = .ok (b, u)) :
    ∃ a v, x = .ok (a, v) ∧ k a v = .ok (b, u) := by
  match x, h with
  | .ok (a, v), h => exact ⟨a, v, rfl, h⟩
  | .error e, h => exact absurd h (by simp [bindE])

theorem bindS_ok {β : Type} {x : Except PErr (List PTok)}
    {k : List PTok → Except PErr (β × List PTok)} {b : β} {u : List PTok}
    (h : bindS x k = .ok (b, u)) :
    ∃ v, x = .ok v ∧ k v = .ok (b, u) := by
  match x, h with
  | .ok v, h => exact ⟨v, rfl, h⟩
  | .error e, h => exact absurd h (by simp [bindS])

theorem pProgLoop_final : ∀ (fuel : Nat) (ts : List PTok) (ns : List PNode)
    (u : List PTok), pProgLoop fuel ts = .ok (ns, u) → u = [] := by
  intro fuel
  induction fuel with
  | zero =>
    intro ts ns u h
    exact absurd h (by simp [pProgLoop])
  | succ f ih =>
    intro ts ns u h
    rw [pProgLoop_eq] at h
    by_cases hnil : ts = []
    · rw [if_pos hnil] at h
      simp only [Except.ok.injEq, Prod.mk.injEq] at h
      rw [← h.2]
      exact hnil
    · rw [if_neg hnil] at h
      obtain ⟨n, v, h1, h⟩ := bindE_ok h
      obtain ⟨ms, w, h2, h⟩ := bindE_ok h
      simp only [Except.ok.injEq, Prod.mk.injEq] at h
      rw [← h.2]
      exact ih _ _ _ h2

theorem pProgram_final (fuel : Nat) (ts : List PTok) (n : PNode) (u : List PTok)
    (h : pProgram fuel ts = .ok (n, u)) : u = [] := by
  cases fuel with
  | zero => exact absurd h (by simp [pProgram])
  | succ f =>
    rw [pProgram_eq] at h
    obtain ⟨cs, v, h1, h2⟩ := bindE_ok h
    simp only [Except.ok.injEq, Prod.mk.injEq] at h2
    rw [← h2.2]
    exact pProgLoop_final f _ _ _ h1

theorem pProgram_ins_eq (fuel : Nat) (ts ts2 : List PTok) (h : Ins ts ts2) :
    pProgram fuel ts = pProgram fuel ts2 := by
  rcases RR_cases ((lockstep fuel).1 ts ts2 h) with ⟨e, h1, h2⟩ | ⟨n, u, u2, h1, h2, hu⟩
  · rw [h1, h2]
  · rw [h1, h2, pProgram_final fuel ts n u h1, pProgram_final fuel ts2 n u2 h2]

mutual

/-- No node of the tree, at any depth, carries one of the two comment
classes as its category tag. -/
def cleanN : PNode → Bool
  | .mk ty _ _ cs =>
    !(ty == "Single-Line Comment") && !(ty == "Multi-Line Comment") && cleanL cs

def cleanL : List PNode → Bool
  | [] => true
  | n :: ns => cleanN n && cleanL ns

end

theorem cleanL_append (a b : List PNode) :
    cleanL (a ++ b) = (cleanL a && cleanL b) := by
  induction a with
  | nil => simp [cleanL]
  | cons n ns ih => simp [cleanL, ih, Bool.and_assoc]

/-- Every tree or forest any parsing function returns is free of
comment-classed nodes, by one induction on the fuel. -/
theorem purity_all : ∀ fuel : Nat,
    (∀ a n u, pProgram fuel a = .ok (n, u) → cleanN n = true) ∧
    (∀ a ns u, pProgLoop fuel a = .ok (ns, u) → cleanL ns = true) ∧
    (∀ a n u, pTopLevel fuel a = .ok (n, u) → cleanN n = true) ∧
    (∀ a n u, pFuncProto fuel a = .ok (n, u) → cleanN n = true) ∧
    (∀ a n u, pVarDecl fuel a = .ok (n, u) → cleanN n = true) ∧
    (∀ a ns u, pVarDeclLoop fuel a = .ok (ns, u) → cleanL ns = true) ∧
    (∀ a n u, pStatement fuel a = .ok (n, u) → cleanN n = true) ∧
    (∀ a n u, pBlock fuel a = .ok (n, u) → cleanN n = true) ∧
    (∀ a ns u, pBlockLoop fuel a = .ok (ns, u) → cleanL ns = true) ∧
    (∀ a n u, pIf fuel a = .ok (n, u) → cleanN n = true) ∧
    (∀ a n u, pReturn fuel a = .ok (n, u) → cleanN n = true) ∧
    (∀ a n u, pExprStmt fuel a = .ok (n, u) → cleanN n = true) ∧
    (∀ a n u, pFor fuel a = .ok (n, u) → cleanN n = true) ∧
    (∀ a n u, pExpression fuel a = .ok (n, u) → cleanN n = true) ∧
    (∀ a n u, pAssignment fuel a = .ok (n, u) → cleanN n = true) ∧
    (∀ a n u, pEquality fuel a = .ok (n, u) → cleanN n = true) ∧
    (∀ l a n u, cleanN l = true → pEqLoop fuel l a = .ok (n, u) → cleanN n = true) ∧
    (∀ a n u, pRelational fuel a = .ok (n, u) → cleanN n = true) ∧
    (∀ l a n u, cleanN l = true → pRelLoop fuel l a = .ok (n, u) → cleanN n = true) ∧
    (∀ a n u, pAdditive fuel a = .ok (n, u) → cleanN n = true) ∧
    (∀ l a n u, cleanN l = true → pAddLoop fuel l a = .ok (n, u) → cleanN n = true) ∧
    (∀ a n u, pMultiplicative fuel a = .ok (n, u) → cleanN n = true) ∧
    (∀ l a n u, cleanN l = true → pMulLoop fuel l a = .ok (n, u) → cleanN n = true) ∧
    (∀ a n u, pPrimary fuel a = .ok (n, u) → cleanN n = true) := by
  intro fuel
  induction fuel with
  | zero =>
    exact ⟨fun a n u h => absurd h (by simp [pProgram]),
      fun a ns u h => absurd h (by simp [pProgLoop]),
      fun a n u h => absurd h (by simp [pTopLevel]),
      fun a n u h => absurd h (by simp [pFuncProto]),
      fun a n u h => absurd h (by simp [pVarDecl]),
      fun a ns u h => absurd h (by simp [pVarDeclLoop]),
      fun a n u h => absurd h (by simp [pStatement]),
      fun a n u h => absurd h (by simp [pBlock]),
      fun a ns u h => absurd h (by simp [pBlockLoop]),
      fun a n u h => absurd h (by simp [pIf]),
      fun a n u h => absurd h (by simp [pReturn]),
      fun a n u h => absurd h (by simp [pExprStmt]),
      fun a n u h => absurd h (by simp [pFor]),
      fun a n u h => absurd h (by simp [pExpression]),
      fun a n u h => absurd h (by simp [pAssignment]),
      fun a n u h => absurd h (by simp [pEquality]),
      fun l a n u hl h => absurd h (by simp [pEqLoop]),
      fun a n u h => absurd h (by simp [pRelational]),
      fun l a n u hl h => absurd h (by simp [pRelLoop]),
      fun a n u h => absurd h (by simp [pAdditive]),
      fun l a n u hl h => absurd h (by simp [pAddLoop]),
      fun a n u h => absurd h (by simp [pMultiplicative]),
      fun l a n u hl h => absurd h (by simp [pMulLoop]),
      fun a n u h => absurd h (by simp [pPrimary])⟩
  | succ f ih =>
    obtain ⟨jProg, jProgL, jTop, jProto, jVar, jVarL, jStmt, jBlock, jBlockL,
      jIf, jRet, jExprS, jFor, jExpr, jAssign, jEq, jEqL, jRel, jRelL, jAdd,
      jAddL, jMul, jMulL, jPrim⟩ := ih
    have kProgL : ∀ a ns u, pProgLoop (f+1) a = .ok (ns, u) → cleanL ns = true := by
      intro ts ns u h
      rw [pProgLoop_eq] at h
      by_cases hnil : ts = []
      · rw [if_pos hnil] at h
        simp only [Except.ok.injEq, Prod.mk.injEq] at h
        rw [← h.1]
        simp [cleanL]
      · rw [if_neg hnil] at h
        obtain ⟨nn, v, h1, h⟩ := bindE_ok h
        obtain ⟨ms, w, h2, h⟩ := bindE_ok h
        have hn := jTop _ _ _ h1
        have hms := jProgL _ _ _ h2
        simp only [Except.ok.injEq, Prod.mk.injEq] at h
        rw [← h.1]
        simp [cleanL, hn, hms]
    have kProg : ∀ a n u, pProgram (f+1) a = .ok (n, u) → cleanN n = true := by
      intro ts n u h
      rw [pProgram_eq] at h
      obtain ⟨cs, v, h1, h⟩ := bindE_ok h
      have hcs := jProgL _ _ _ h1
      simp only [Except.ok.injEq, Prod.mk.injEq] at h
      rw [← h.1]
      simp [cleanN, hcs]
    have kTop : ∀ a n u, pTopLevel (f+1) a = .ok (n, u) → cleanN n = true := by
      intro ts n u h
      rw [pTopLevel_eq] at h
      by_cases h1 : (peekT ts).cls = "PREPROCESSOR DIRECTIVE"
      · rw [if_pos h1] at h
        obtain ⟨d, v, h2, h⟩ := bindE_ok h
        simp only [Except.ok.injEq, Prod.mk.injEq] at h
        rw [← h.1]
        simp [cleanN, cleanL]
      · rw [if_neg h1] at h
        by_cases h2 : (peekT ts).cls = "KEYWORD" ∧ ((peekT ts).value = "int" ∨
            (peekT ts).value = "float" ∨ (peekT ts).value = "char" ∨
            (peekT ts).value = "void" ∨ (peekT ts).value = "const")
        · rw [if_pos h2] at h
          by_cases h3 : (lk 2 (skipC ts)).value = "("
          · rw [if_pos h3] at h
            exact jProto _ _ _ h
          · rw [if_neg h3] at h
            exact jVar _ _ _ h
        · rw [if_neg h2] at h
          exact absurd h (by simp)
    have kProto : ∀ a n u, pFuncProto (f+1) a = .ok (n, u) → cleanN n = true := by
      intro ts n u h
      rw [pFuncProto_eq] at h
      obtain ⟨ty, u1, a1, h⟩ := bindE_ok h
      obtain ⟨nm, u2, a2, h⟩ := bindE_ok h
      obtain ⟨t3, u3, a3, h⟩ := bindE_ok h
      obtain ⟨t4, u4, a4, h⟩ := bindE_ok h
      by_cases h1 : (peekT u4).value = "\x7b"
      · rw [if_pos h1] at h
        obtain ⟨body, u5, a5, h⟩ := bindE_ok h
        have hb := jBlock _ _ _ a5
        simp only [Except.ok.injEq, Prod.mk.injEq] at h
        rw [← h.1]
        simp [cleanN, cleanL, hb]
      · rw [if_neg h1] at h
        by_cases h2 : (peekT u4).value = ";"
        · rw [if_pos h2] at h
          obtain ⟨t5, u5, a5, h⟩ := bindE_ok h
          simp only [Except.ok.injEq, Prod.mk.injEq] at h
          rw [← h.1]
          simp [cleanN, cleanL]
        · rw [if_neg h2] at h
          exact absurd h (by simp)
    have kVarL : ∀ a ns u, pVarDeclLoop (f+1) a = .ok (ns, u) → cleanL ns = true := by
      intro ts ns u h
      rw [pVarDeclLoop_eq] at h
      obtain ⟨u1, a1, h⟩ := bindS_ok h
      obtain ⟨varTok, u2, a2, h⟩ := bindE_ok h
      obtain ⟨initCs, u3, a3, h⟩ := bindE_ok h
      have hi : cleanL initCs = true := by
        by_cases h1 : (peekT u2).value = "="
        · rw [if_pos h1] at a3
          obtain ⟨op, v, b1, b2⟩ := bindE_ok a3
          obtain ⟨e, w, b3, b4⟩ := bindE_ok b2
          have he := jExpr _ _ _ b3
          simp only [Except.ok.injEq, Prod.mk.injEq] at b4
          rw [← b4.1]
          simp [cleanL, cleanN, he]
        · rw [if_neg h1] at a3
          simp only [Except.ok.injEq, Prod.mk.injEq] at a3
          rw [← a3.1]
          simp [cleanL]
      by_cases h2 : (peekT u3).value = ","
      · rw [if_pos h2] at h
        obtain ⟨ds, v, b1, b2⟩ := bindE_ok h
        have hds := jVarL _ _ _ b1
        simp only [Except.ok.injEq, Prod.mk.injEq] at b2
        rw [← b2.1]
        simp [cleanL, cleanN, hi, hds]
      · rw [if_neg h2] at h
        simp only [Except.ok.injEq, Prod.mk.injEq] at h
        rw [← h.1]
        simp [cleanL, cleanN, hi]
    have kVar : ∀ a n u, pVarDecl (f+1) a = .ok (n, u) → cleanN n = true := by
      intro ts n u h
      rw [pVarDecl_eq] at h
      obtain ⟨constCs, u1, a1, h⟩ := bindE_ok h
      have hc : cleanL constCs = true := by
        by_cases h1 : (peekT (skipC ts)).value = "const"
        · rw [if_pos h1] at a1
          obtain ⟨t, v, b1, b2⟩ := bindE_ok a1
          simp only [Except.ok.injEq, Prod.mk.injEq] at b2
          rw [← b2.1]
          simp [cleanL, cleanN]
        · rw [if_neg h1] at a1
          simp only [Except.ok.injEq, Prod.mk.injEq] at a1
          rw [← a1.1]
          simp [cleanL]
      obtain ⟨tyT, u2, a2, h⟩ := bindE_ok h
      obtain ⟨decls, u3, a3, h⟩ := bindE_ok h
      obtain ⟨t5, u4, a4, h⟩ := bindE_ok h
      have hd := jVarL _ _ _ a3
      simp only [Except.ok.injEq, Prod.mk.injEq] at h
      rw [← h.1]
      simp [cleanN, cleanL, cleanL_append, hc, hd]
    have kStmt : ∀ a n u, pStatement (f+1) a = .ok (n, u) → cleanN n = true := by
      intro ts n u h
      rw [pStatement_eq] at h
      by_cases h1 : (peekT ts).value = "if"
      · rw [if_pos h1] at h
        exact jIf _ _ _ h
      · rw [if_neg h1] at h
        by_cases h2 : (peekT ts).value = "for"
        · rw [if_pos h2] at h
          exact jFor _ _ _ h
        · rw [if_neg h2] at h
          by_cases h3 : (peekT ts).value = "return"
          · rw [if_pos h3] at h
            exact jRet _ _ _ h
          · rw [if_neg h3] at h
            by_cases h4 : (peekT ts).value = "\x7b"
            · rw [if_pos h4] at h
              exact jBlock _ _ _ h
            · rw [if_neg h4] at h
              by_cases h5 : (peekT ts).value = ";"
              · rw [if_pos h5] at h
                obtain ⟨t1, v, b1, b2⟩ := bindE_ok h
                simp only [Except.ok.injEq, Prod.mk.injEq] at b2
                rw [← b2.1]
                simp [cleanN, cleanL]
              · rw [if_neg h5] at h
                by_cases h6 : (peekT ts).value = "const" ∨ (peekT ts).value = "int" ∨
                    (peekT ts).value = "float" ∨ (peekT ts).value = "char"
                · rw [if_pos h6] at h
                  exact jVar _ _ _ h
                · rw [if_neg h6] at h
                  exact jExprS _ _ _ h
    have kBlockL : ∀ a ns u, pBlockLoop (f+1) a = .ok (ns, u) → cleanL ns = true := by
      intro ts ns u h
      rw [pBlockLoop_eq] at h
      by_cases h1 : (peekT ts).value = "\x7d"
      · rw [if_pos h1] at h
        simp only [Except.ok.injEq, Prod.mk.injEq] at h
        rw [← h.1]
        simp [cleanL]
      · rw [if_neg h1] at h
        obtain ⟨s, v, b1, h⟩ := bindE_ok h
        obtain ⟨ss, w, b2, h⟩ := bindE_ok h
        have hs := jStmt _ _ _ b1
        have hss := jBlockL _ _ _ b2
        simp only [Except.ok.injEq, Prod.mk.injEq] at h
        rw [← h.1]
        simp [cleanL, hs, hss]
    have kBlock : ∀ a n u, pBlock (f+1) a = .ok (n, u) → cleanN n = true := by
      intro ts n u h
      rw [pBlock_eq] at h
      obtain ⟨t1, u1, a1, h⟩ := bindE_ok h
      obtain ⟨cs, u2, a2, h⟩ := bindE_ok h
      obtain ⟨t2, u3, a3, h⟩ := bindE_ok h
      have hcs := jBlockL _ _ _ a2
      simp only [Except.ok.injEq, Prod.mk.injEq] at h
      rw [← h.1]
      simp [cleanN, hcs]
    have kIf : ∀ a n u, pIf (f+1) a = .ok (n, u) → cleanN n = true := by
      intro ts n u h
      rw [pIf_eq] at h
      obtain ⟨t1, u1, a1, h⟩ := bindE_ok h
      obtain ⟨t2, u2, a2, h⟩ := bindE_ok h
      obtain ⟨cond, u3, a3, h⟩ := bindE_ok h
      obtain ⟨t3, u4, a4, h⟩ := bindE_ok h
      obtain ⟨thenS, u5, a5, h⟩ := bindE_ok h
      have hc := jExpr _ _ _ a3
      have ht := jStmt _ _ _ a5
      by_cases h1 : (peekT u5).value = "else"
      · rw [if_pos h1] at h
        obtain ⟨t4, u6, a6, h⟩ := bindE_ok h
        obtain ⟨elseS, u7, a7, h⟩ := bindE_ok h
        have he := jStmt _ _ _ a7
        simp only [Except.ok.injEq, Prod.mk.injEq] at h
        rw [← h.1]
        simp [cleanN, cleanL, hc, ht, he]
      · rw [if_neg h1] at h
        simp only [Except.ok.injEq, Prod.mk.injEq] at h
        rw [← h.1]
        simp [cleanN, cleanL, hc, ht]
    have kRet : ∀ a n u, pReturn (f+1) a = .ok (n, u) → cleanN n = true := by
      intro ts n u h
      rw [pReturn_eq] at h
      obtain ⟨t1, u1, a1, h⟩ := bindE_ok h
      obtain ⟨cs, u2, a2, h⟩ := bindE_ok h
      have hcs : cleanL cs = true := by
        by_cases h1 : ¬ (peekT u1).value = ";"
        · rw [if_pos h1] at a2
          obtain ⟨e, v, b1, b2⟩ := bindE_ok a2
          have he := jExpr _ _ _ b1
          simp only [Except.ok.injEq, Prod.mk.injEq] at b2
          rw [← b2.1]
          simp [cleanL, he]
        · rw [if_neg h1] at a2
          simp only [Except.ok.injEq, Prod.mk.injEq] at a2
          rw [← a2.1]
          simp [cleanL]
      obtain ⟨t2, u3, a3, h⟩ := bindE_ok h
      simp only [Except.ok.injEq, Prod.mk.injEq] at h
      rw [← h.1]
      simp [cleanN, hcs]
    have kExprS : ∀ a n u, pExprStmt (f+1) a = .ok (n, u) → cleanN n = true := by
      intro ts n u h
      rw [pExprStmt_eq] at h
      obtain ⟨e, u1, a1, h⟩ := bindE_ok h
      obtain ⟨t1, u2, a2, h⟩ := bindE_ok h
      have he := jExpr _ _ _ a1
      simp only [Except.ok.injEq, Prod.mk.injEq] at h
      rw [← h.1]
      simp [cleanN, cleanL, he]
    have kFor : ∀ a n u, pFor (f+1) a = .ok (n, u) → cleanN n = true := by
      intro ts n u h
      rw [pFor_eq] at h
      obtain ⟨t1, u1, a1, h⟩ := bindE_ok h
      obtain ⟨t2, u2, a2, h⟩ := bindE_ok h
      obtain ⟨initN, u3, a3, h⟩ := bindE_ok h
      have hInit : cleanN initN = true := by
        by_cases h1 : (peekT u2).value = ";"
        · rw [if_pos h1] at a3
          obtain ⟨t3, v, b1, b2⟩ := bindE_ok a3
          simp only [Except.ok.injEq, Prod.mk.injEq] at b2
          rw [← b2.1]
          simp [cleanN, cleanL]
        · rw [if_neg h1] at a3
          by_cases h2 : (peekT u2).value = "int" ∨ (peekT u2).value = "char" ∨
              (peekT u2).value = "float"
          · rw [if_pos h2] at a3
            exact jVar _ _ _ a3
          · rw [if_neg h2] at a3
            exact jExprS _ _ _ a3
      obtain ⟨condN, u4, a4, h⟩ := bindE_ok h
      have hCond : cleanN condN = true := by
        by_cases h1 : (peekT u3).value = ";"
        · rw [if_pos h1] at a4
          obtain ⟨t3, v, b1, b2⟩ := bindE_ok a4
          simp only [Except.ok.injEq, Prod.mk.injEq] at b2
          rw [← b2.1]
          simp [cleanN, cleanL]
        · rw [if_neg h1] at a4
          obtain ⟨e, v, b1, b2⟩ := bindE_ok a4
          obtain ⟨t3, w, b3, b4⟩ := bindE_ok b2
          have he := jExpr _ _ _ b1
          simp only [Except.ok.injEq, Prod.mk.injEq] at b4
          rw [← b4.1]
          exact he
      obtain ⟨incrN, u5, a5, h⟩ := bindE_ok h
      have hIncr : cleanN incrN = true := by
        by_cases h1 : (peekT u4).value = ")"
        · rw [if_pos h1] at a5
          simp only [Except.ok.injEq, Prod.mk.injEq] at a5
          rw [← a5.1]
          simp [cleanN, cleanL]
        · rw [if_neg h1] at a5
          exact jExpr _ _ _ a5
      obtain ⟨t3, u6, a6, h⟩ := bindE_ok h
      obtain ⟨body, u7, a7, h⟩ := bindE_ok h
      have hb := jStmt _ _ _ a7
      simp only [Except.ok.injEq, Prod.mk.injEq] at h
      rw [← h.1]
      simp [cleanN, cleanL, hInit, hCond, hIncr, hb]
    have kExpr : ∀ a n u, pExpression (f+1) a = .ok (n, u) → cleanN n = true := by
      intro ts n u h
      rw [pExpression_eq] at h
      exact jAssign _ _ _ h
    have kAssign : ∀ a n u, pAssignment (f+1) a = .ok (n, u) → cleanN n = true := by
      intro ts n u h
      rw [pAssignment_eq] at h
      obtain ⟨l, u1, a1, h⟩ := bindE_ok h
      have hl := jEq _ _ _ a1
      by_cases h1 : (peekT u1).value = "="
      · rw [if_pos h1] at h
        obtain ⟨op, u2, a2, h⟩ := bindE_ok h
        obtain ⟨r, u3, a3, h⟩ := bindE_ok h
        have hr := jAssign _ _ _ a3
        simp only [Except.ok.injEq, Prod.mk.injEq] at h
        rw [← h.1]
        simp [cleanN, cleanL, hl, hr]
      · rw [if_neg h1] at h
        simp only [Except.ok.injEq, Prod.mk.injEq] at h
        rw [← h.1]
        exact hl
    have kEqL : ∀ l a n u, cleanN l = true → pEqLoop (f+1) l a = .ok (n, u) →
        cleanN n = true := by
      intro l ts n u hl h
      rw [pEqLoop_eq] at h
      by_cases h1 : (peekT ts).value = "==" ∨ (peekT ts).value = "!="
      · rw [if_pos h1] at h
        obtain ⟨op, u1, a1, h⟩ := bindE_ok h
        obtain ⟨r, u2, a2, h⟩ := bindE_ok h
        have hr := jRel _ _ _ a2
        exact jEqL _ _ _ _ (by simp [cleanN, cleanL, hl, hr]) h
      · rw [if_neg h1] at h
        simp only [Except.ok.injEq, Prod.mk.injEq] at h
        rw [← h.1]
        exact hl
    have kEq : ∀ a n u, pEquality (f+1) a = .ok (n, u) → cleanN n = true := by
      intro ts n u h
      rw [pEquality_eq] at h
      obtain ⟨l, u1, a1, h⟩ := bindE_ok h
      exact jEqL _ _ _ _ (jRel _ _ _ a1) h
    have kRelL : ∀ l a n u, cleanN l = true → pRelLoop (f+1) l a = .ok (n, u) →
        cleanN n = true := by
      intro l ts n u hl h
      rw [pRelLoop_eq] at h
      by_cases h1 : (peekT ts).value = "<" ∨ (peekT ts).value = ">" ∨
          (peekT ts).value = "<=" ∨ (peekT ts).value = ">="
      · rw [if_pos h1] at h
        obtain ⟨op, u1, a1, h⟩ := bindE_ok h
        obtain ⟨r, u2, a2, h⟩ := bindE_ok h
        have hr := jAdd _ _ _ a2
        exact jRelL _ _ _ _ (by simp [cleanN, cleanL, hl, hr]) h
      · rw [if_neg h1] at h
        simp only [Except.ok.injEq, Prod.mk.injEq] at h
        rw [← h.1]
        exact hl
    have kRel : ∀ a n u, pRelational (f+1) a = .ok (n, u) → cleanN n = true := by
      intro ts n u h
      rw [pRelational_eq] at h
      obtain ⟨l, u1, a1, h⟩ := bindE_ok h
      exact jRelL _ _ _ _ (jAdd _ _ _ a1) h
    have kAddL : ∀ l a n u, cleanN l = true → pAddLoop (f+1) l a = .ok (n, u) →
        cleanN n = true := by
      intro l ts n u hl h
      rw [pAddLoop_eq] at h
      by_cases h1 : (peekT ts).value = "+" ∨ (peekT ts).value = "-"
      · rw [if_pos h1] at h
        obtain ⟨op, u1, a1, h⟩ := bindE_ok h
        obtain ⟨r, u2, a2, h⟩ := bindE_ok h
        have hr := jMul _ _ _ a2
        exact jAddL _ _ _ _ (by simp [cleanN, cleanL, hl, hr]) h
      · rw [if_neg h1] at h
        simp only [Except.ok.injEq, Prod.mk.injEq] at h
        rw [← h.1]
        exact hl
    have kAdd : ∀ a n u, pAdditive (f+1) a = .ok (n, u) → cleanN n = true := by
      intro ts n u h
      rw [pAdditive_eq] at h
      obtain ⟨l, u1, a1, h⟩ := bindE_ok h
      exact jAddL _ _ _ _ (jMul _ _ _ a1) h
    have kMulL : ∀ l a n u, cleanN l = true → pMulLoop (f+1) l a = .ok (n, u) →
        cleanN n = true := by
      intro l ts n u hl h
      rw [pMulLoop_eq] at h
      by_cases h1 : (peekT ts).value = "*" ∨ (peekT ts).value = "/"
      · rw [if_pos h1] at h
        obtain ⟨op, u1, a1, h⟩ := bindE_ok h
        obtain ⟨r, u2, a2, h⟩ := bindE_ok h
        have hr := jPrim _ _ _ a2
        exact jMulL _ _ _ _ (by simp [cleanN, cleanL, hl, hr]) h
      · rw [if_neg h1] at h
        simp only [Except.ok.injEq, Prod.mk.injEq] at h
        rw [← h.1]
        exact hl
    have kMul : ∀ a n u, pMultiplicative (f+1) a = .ok (n, u) → cleanN n = true := by
      intro ts n u h
      rw [pMultiplicative_eq] at h
      obtain ⟨l, u1, a1, h⟩ := bindE_ok h
      exact jMulL _ _ _ _ (jPrim _ _ _ a1) h
    have kPrim : ∀ a n u, pPrimary (f+1) a = .ok (n, u) → cleanN n = true := by
      intro ts n u h
      rw [pPrimary_eq] at h
      by_cases h1 : (peekT (skipC ts)).cls = "NUMERIC CONSTANT"
      · rw [if_pos h1] at h
        obtain ⟨v, u1, a1, h⟩ := bindE_ok h
        simp only [Except.ok.injEq, Prod.mk.injEq] at h
        rw [← h.1]
        simp [cleanN, cleanL]
      · rw [if_neg h1] at h
        by_cases h2 : (peekT (skipC ts)).cls = "IDENTIFIER"
        · rw [if_pos h2] at h
          obtain ⟨v, u1, a1, h⟩ := bindE_ok h
          simp only [Except.ok.injEq, Prod.mk.injEq] at h
          rw [← h.1]
          simp [cleanN, cleanL]
        · rw [if_neg h2] at h
          by_cases h3 : (peekT (skipC ts)).value = "("
          · rw [if_pos h3] at h
            obtain ⟨t1, u1, a1, h⟩ := bindE_ok h
            obtain ⟨e, u2, a2, h⟩ := bindE_ok h
            obtain ⟨t2, u3, a3, h⟩ := bindE_ok h
            have he := jExpr _ _ _ a2
            simp only [Except.ok.injEq, Prod.mk.injEq] at h
            rw [← h.1]
            exact he
          · rw [if_neg h3] at h
            exact absurd h (by simp)
    exact ⟨kProg, kProgL, kTop, kProto, kVar, kVarL, kStmt, kBlock, kBlockL,
      kIf, kRet, kExprS, kFor, kExpr, kAssign, kEq, kEqL, kRel, kRelL, kAdd,
      kAddL, kMul, kMulL, kPrim⟩

/-- The stream of `int x ;` and a Single-Line Comment token. -/
def c1ts : List PTok :=
  [⟨"int", "KEYWORD", 1⟩, ⟨"x", "IDENTIFIER", 1⟩, ⟨";", "SPECIAL CHARACTER", 1⟩]

def c1slc : PTok := ⟨"// c", "Single-Line Comment", 1⟩

/-- Claim C1, counterexample: inserting a comment token at the end of the
stream changes the parse result.  `int x ;` parses to a Program tree, but
with a trailing Single-Line Comment token appended the parse fails:
`parse_program`'s `is_at_end` check counts raw positions, so the loop runs
once more, and the top-level dispatch rejects the EOF that `peek` then
yields. -/
theorem c1_counterexample :
    pProgram 20 c1ts =
      .ok (PNode.mk "Program" "" 1
        [PNode.mk "VariableDeclarationStatement" "" 1
          [PNode.mk "TypeSpecifier" "int" 1 [],
           PNode.mk "Declarator" "x" 1 []]], []) ∧
    pProgram 20 (c1ts ++ [c1slc]) = .error (.unrecognizedTopLevel none) :=
  ⟨rfl, rfl⟩

/-- Claim C1 (amended): for every insertion of Single-Line or Multi-Line
Comment tokens at non-trailing positions of a token stream (`Ins ts ts2`,
every inserted comment being followed by some further token), the parse
result is unchanged — the same error, or the very same tree; and every tree
the parser produces is free of comment-classed nodes at every depth.
Insertion at the very end of the stream is excluded: it can turn success
into failure, as `c1_counterexample` shows. -/
theorem c1_comment_insertion (fuel : Nat) (ts ts2 : List PTok) (h : Ins ts ts2) :
    pProgram fuel ts = pProgram fuel ts2 ∧
    (∀ n u, pProgram fuel ts = .ok (n, u) → cleanN n = true) :=
  ⟨pProgram_ins_eq fuel ts ts2 h, fun n u hn => (purity_all fuel).1 ts n u hn⟩

theorem c1_comment_insertion_witness :
    pProgram 20 c1ts = pProgram 20 (c1slc :: c1ts) ∧
    (∀ n u, pProgram 20 c1ts = .ok (n, u) → cleanN n = true) :=
  c1_comment_insertion 20 c1ts (c1slc :: c1ts)
    (Ins.ins c1slc rfl (Ins.refl_list c1ts) (by decide))

end CParse
